import Mathlib

/-!
Verification development for the rss_news_reader repository.

The definitions below are a shallow embedding of the article-enrichment
pipeline: `rss_parser/web_parser/data_checkers.py` (the image acceptance
filter), `rss_parser/web_parser/web_parser.py` (the page fetcher / image
resolver), `rss_parser/news_object.py` (the article enricher) and
`rss_parser/parser_management.py` (the concurrent batch former).

External collaborators are represented by parameters:
  * the network (`requests.get`) by a function `Net` mapping a URL to
    either a status code or a connection-level error (the exception
    family `MissingSchema` / `InvalidSchema` / `ConnectionError`),
  * the HTML parser (`BeautifulSoup`) by a `Page` structure carrying the
    parsed facts the code reads from the soup,
  * `dateutil.parser.parse` by function parameters `parseDate`
    (full timestamp reformatting) and `parseDateOnly` (date-only form).

Raised Python exceptions are modelled with `Except String`, the message
naming the exception family.
-/

namespace RssReader

/-! ### String helpers (Python `in`, `endswith`, `re` patterns) -/

/-- `needle` occurs as a contiguous block of the haystack: Python's
substring containment `needle in hay`. -/
def listInfix (needle : List Char) : List Char → Bool
  | [] => needle.isPrefixOf []
  | c :: rest => needle.isPrefixOf (c :: rest) || listInfix needle rest

/-- Python `pat in s` on strings. -/
def strContains (s pat : String) : Bool := listInfix pat.data s.data

/-- Python `s.endswith(pat)`. -/
def strEndsWith (s pat : String) : Bool := pat.data.isSuffixOf s.data

theorem listInfix_iff (needle : List Char) :
    ∀ hay, listInfix needle hay = true ↔ ∃ p s, hay = p ++ needle ++ s := by
  intro hay
  induction hay with
  | nil =>
    simp only [listInfix, List.isPrefixOf_iff_prefix]
    constructor
    · intro h
      exact ⟨[], [], by simpa using (List.prefix_nil.mp h).symm⟩
    · rintro ⟨p, s, h⟩
      have : p = [] ∧ needle ++ s = [] := by
        constructor
        · cases p with
          | nil => rfl
          | cons a as => simp at h
        · cases p with
          | nil => simpa using h.symm
          | cons a as => simp at h
      rcases this with ⟨hp, hs⟩
      have : needle = [] := by
        cases needle with
        | nil => rfl
        | cons a as => simp at hs
      simp [this]
  | cons c rest ih =>
    simp only [listInfix, Bool.or_eq_true, List.isPrefixOf_iff_prefix, ih]
    constructor
    · rintro (⟨t, ht⟩ | ⟨p, s, h⟩)
      · exact ⟨[], t, by simp [ht]⟩
      · exact ⟨c :: p, s, by simp [h]⟩
    · rintro ⟨p, s, h⟩
      cases p with
      | nil =>
        left
        exact ⟨s, by simpa using h.symm⟩
      | cons a as =>
        right
        refine ⟨as, s, ?_⟩
        have := h
        simp only [List.cons_append] at this
        exact (List.cons.injEq _ _ _ _ ▸ this) |>.2

theorem listInfix_append_left (needle p : List Char) (hay : List Char)
    (h : listInfix needle hay = true) : listInfix needle (p ++ hay) = true := by
  induction p with
  | nil => simpa using h
  | cons c cs ih =>
    simp only [List.cons_append, listInfix, Bool.or_eq_true]
    exact Or.inr ih

theorem strEndsWith_trans_gif (s : String) (h : strEndsWith s ".gif" = true) :
    strEndsWith s "gif" = true := by
  unfold strEndsWith at *
  rw [List.isSuffixOf_iff_suffix] at *
  exact List.IsSuffix.trans (by decide) h

theorem strEndsWith_trans_svg (s : String) (h : strEndsWith s ".svg" = true) :
    strEndsWith s "svg" = true := by
  unfold strEndsWith at *
  rw [List.isSuffixOf_iff_suffix] at *
  exact List.IsSuffix.trans (by decide) h

/-! ### Model of `re.sub("<.*?>", "", s)` and of `BeautifulSoup(s, "lxml").get_text()`

`news_object.py` strips markup with the non-greedy regex `<.*?>` (where
`.` does not cross a newline) and then runs the result through
BeautifulSoup's `get_text`, whose visible effect on already-stripped text
is the removal of remaining tag spans plus the decoding of character
references such as `&#39;`.  Both are modelled character-exactly below:
a `<` opens a span removed up to the first following `>` on the same
line, an unterminated `<` is kept literally, and `&#digits(;)` decodes. -/

/-- Scan to the first `>`; fail at a newline or the end of input
(the regex `.` does not match a newline, so such a `<` never matches). -/
def dropToGt : List Char → Option (List Char)
  | [] => none
  | c :: rest => if c = '>' then some rest else if c = '\n' then none else dropToGt rest

theorem dropToGt_length : ∀ l l', dropToGt l = some l' → l'.length < l.length := by
  intro l
  induction l with
  | nil => intro l' h; simp [dropToGt] at h
  | cons c rest ih =>
    intro l' h
    unfold dropToGt at h
    split_ifs at h
    · cases h
      exact Nat.lt_succ_self _
    · exact Nat.lt_succ_of_lt (ih l' h)

/-- Fuel-based engine for the tag-span removal; `fuel ≥ l.length` makes
the fuel invisible (`stripTagsFuel_congr`). -/
def stripTagsFuel : Nat → List Char → List Char
  | 0, _ => []
  | _ + 1, [] => []
  | fuel + 1, c :: rest =>
    if c = '<' then
      match dropToGt rest with
      | some rest' => stripTagsFuel fuel rest'
      | none => c :: stripTagsFuel fuel rest
    else c :: stripTagsFuel fuel rest

/-- Removal of the non-greedy tag spans (`re.sub("<.*?>", "", s)` and the
tag-removal half of `get_text`). -/
def stripTagsList (l : List Char) : List Char := stripTagsFuel l.length l

theorem stripTagsFuel_congr : ∀ (f1 : Nat) (f2 : Nat) (l : List Char),
    l.length ≤ f1 → l.length ≤ f2 → stripTagsFuel f1 l = stripTagsFuel f2 l := by
  intro f1
  induction f1 with
  | zero =>
    intro f2 l h1 _
    have : l = [] := List.length_eq_zero.mp (Nat.le_zero.mp h1)
    subst this
    cases f2 <;> rfl
  | succ f1 ih =>
    intro f2 l h1 h2
    cases l with
    | nil => cases f2 <;> rfl
    | cons c rest =>
      cases f2 with
      | zero => simp at h2
      | succ f2 =>
        simp only [List.length_cons, Nat.succ_le_succ_iff] at h1 h2
        show (if c = '<' then
            match dropToGt rest with
            | some rest' => stripTagsFuel f1 rest'
            | none => c :: stripTagsFuel f1 rest
          else c :: stripTagsFuel f1 rest) =
          (if c = '<' then
            match dropToGt rest with
            | some rest' => stripTagsFuel f2 rest'
            | none => c :: stripTagsFuel f2 rest
          else c :: stripTagsFuel f2 rest)
        by_cases hc : c = '<'
        · rw [if_pos hc, if_pos hc]
          cases hd : dropToGt rest with
          | some rest' =>
            have hlen := dropToGt_length rest rest' hd
            exact ih f2 rest' (by omega) (by omega)
          | none => rw [ih f2 rest h1 h2]
        · rw [if_neg hc, if_neg hc, ih f2 rest h1 h2]

/-- One-step unfolding of `stripTagsList` on a cons cell. -/
theorem stripTagsList_cons (c : Char) (rest : List Char) :
    stripTagsList (c :: rest) =
      if c = '<' then
        match dropToGt rest with
        | some rest' => stripTagsList rest'
        | none => c :: stripTagsList rest
      else c :: stripTagsList rest := by
  show (if c = '<' then
      match dropToGt rest with
      | some rest' => stripTagsFuel rest.length rest'
      | none => c :: stripTagsFuel rest.length rest
    else c :: stripTagsFuel rest.length rest) = _
  by_cases hc : c = '<'
  · rw [if_pos hc, if_pos hc]
    cases hd : dropToGt rest with
    | some rest' =>
      have hlen := dropToGt_length rest rest' hd
      exact stripTagsFuel_congr rest.length rest'.length rest' (by omega) (Nat.le_refl _)
    | none =>
      rfl
  · rw [if_neg hc, if_neg hc]
    rfl

/-- Python `re.sub("<.*?>", "", s)` on strings. -/
def stripTagsStr (s : String) : String := ⟨stripTagsList s.data⟩

theorem stripTagsList_nil : stripTagsList [] = [] := rfl

/-- Greedily read decimal digits. -/
def takeDigits : List Char → List Char × List Char
  | [] => ([], [])
  | c :: rest =>
    if c.isDigit then
      ((c :: (takeDigits rest).1), (takeDigits rest).2)
    else ([], c :: rest)

theorem takeDigits_sum : ∀ l, (takeDigits l).1.length + (takeDigits l).2.length = l.length := by
  intro l
  induction l with
  | nil => simp [takeDigits]
  | cons c rest ih =>
    by_cases h : c.isDigit
    · simp only [takeDigits, h, if_pos, List.length_cons]
      omega
    · simp [takeDigits, h]

def digitsToNat (ds : List Char) : Nat :=
  ds.foldl (fun acc c => acc * 10 + (c.toNat - 48)) 0

/-- Consume the terminating `;` of a character reference when present. -/
def dropSemi : List Char → List Char
  | ';' :: r => r
  | r => r

theorem dropSemi_length (l : List Char) : (dropSemi l).length ≤ l.length := by
  unfold dropSemi
  split
  · exact Nat.le_succ _
  · exact Nat.le_refl _

/-- Fuel-based engine for character-reference decoding; `fuel ≥ l.length`
makes the fuel invisible (`decodeEntitiesFuel_congr`).  A `&#` followed
by digits (and an optional `;`) decodes; any other character passes
through. -/
def decodeEntitiesFuel : Nat → List Char → List Char
  | 0, _ => []
  | _ + 1, [] => []
  | fuel + 1, c :: rest =>
    if c = '&' then
      match rest with
      | c2 :: t2 =>
        if c2 = '#' then
          match takeDigits t2 with
          | ([], _) => '&' :: decodeEntitiesFuel fuel ('#' :: t2)
          | (d :: ds, rest') =>
            Char.ofNat (digitsToNat (d :: ds)) :: decodeEntitiesFuel fuel (dropSemi rest')
        else c :: decodeEntitiesFuel fuel rest
      | [] => c :: decodeEntitiesFuel fuel rest
    else c :: decodeEntitiesFuel fuel rest

/-- Decoding of numeric character references (`&#39;` → `'`), the other
visible effect of `get_text`. -/
def decodeEntities (l : List Char) : List Char := decodeEntitiesFuel l.length l

theorem decodeEntitiesFuel_nil : ∀ f, decodeEntitiesFuel f ([] : List Char) = [] := by
  intro f
  cases f <;> rfl

theorem decodeEntitiesFuel_congr : ∀ (f1 : Nat) (f2 : Nat) (l : List Char),
    l.length ≤ f1 → l.length ≤ f2 → decodeEntitiesFuel f1 l = decodeEntitiesFuel f2 l := by
  intro f1
  induction f1 with
  | zero =>
    intro f2 l h1 _
    have : l = [] := List.length_eq_zero.mp (Nat.le_zero.mp h1)
    subst this
    rw [decodeEntitiesFuel_nil, decodeEntitiesFuel_nil]
  | succ f1 ih =>
    intro f2 l h1 h2
    cases l with
    | nil => rw [decodeEntitiesFuel_nil, decodeEntitiesFuel_nil]
    | cons c rest =>
      cases f2 with
      | zero => simp at h2
      | succ f2 =>
        simp only [List.length_cons, Nat.succ_le_succ_iff] at h1 h2
        show (if c = '&' then _ else _) = (if c = '&' then _ else _)
        by_cases hc : c = '&'
        · rw [if_pos hc, if_pos hc]
          cases rest with
          | nil => simp only; rw [decodeEntitiesFuel_nil, decodeEntitiesFuel_nil]
          | cons c2 t2 =>
            simp only
            by_cases h2c : c2 = '#'
            · rw [if_pos h2c, if_pos h2c]
              cases hta : takeDigits t2 with
              | mk ds rr =>
                cases ds with
                | nil =>
                  simp only [List.length_cons] at h1 h2
                  rw [ih f2 ('#' :: t2) (by simp; omega) (by simp; omega)]
                | cons d dtl =>
                  simp only
                  have hsum := takeDigits_sum t2
                  rw [hta] at hsum
                  have hds := dropSemi_length rr
                  simp only [List.length_cons] at h1 h2 hsum
                  rw [ih f2 (dropSemi rr) (by omega) (by omega)]
            · rw [if_neg h2c, if_neg h2c]
              simp only [List.length_cons] at h1 h2
              rw [ih f2 (c2 :: t2) (by simp; omega) (by simp; omega)]
        · rw [if_neg hc, if_neg hc, ih f2 rest h1 h2]

/-- One-step unfolding of `decodeEntities` at a `&#` reference. -/
theorem decodeEntities_amp (t : List Char) :
    decodeEntities ('&' :: '#' :: t) =
      (match takeDigits t with
      | ([], _) => '&' :: decodeEntities ('#' :: t)
      | (d :: ds, rest') =>
        Char.ofNat (digitsToNat (d :: ds)) :: decodeEntities (dropSemi rest')) := by
  have hstep : decodeEntities ('&' :: '#' :: t) =
      (match takeDigits t with
      | ([], _) => '&' :: decodeEntitiesFuel (t.length + 1) ('#' :: t)
      | (d :: ds, rest') =>
        Char.ofNat (digitsToNat (d :: ds)) :: decodeEntitiesFuel (t.length + 1) (dropSemi rest')) := by
    unfold decodeEntities
    simp only [List.length_cons]
    simp only [decodeEntitiesFuel, if_pos]
  rw [hstep]
  cases hta : takeDigits t with
  | mk ds rr =>
    cases ds with
    | nil => rfl
    | cons d dtl =>
      simp only
      have hsum := takeDigits_sum t
      rw [hta] at hsum
      have hds := dropSemi_length rr
      simp only [List.length_cons] at hsum
      show _ = Char.ofNat (digitsToNat (d :: dtl)) :: decodeEntitiesFuel (dropSemi rr).length (dropSemi rr)
      rw [decodeEntitiesFuel_congr (t.length + 1) (dropSemi rr).length (dropSemi rr)
        (by omega) (Nat.le_refl _)]

/-- One-step unfolding of `decodeEntities` on any cons that is not a
`&#` reference. -/
theorem decodeEntities_generic (c : Char) (rest : List Char)
    (h : ¬(c = '&' ∧ ∃ t2, rest = '#' :: t2)) :
    decodeEntities (c :: rest) = c :: decodeEntities rest := by
  show (if c = '&' then _ else _) = _
  by_cases hc : c = '&'
  · rw [if_pos hc]
    cases rest with
    | nil => rfl
    | cons c2 t2 =>
      simp only
      by_cases h2c : c2 = '#'
      · exact absurd ⟨hc, ⟨t2, by rw [h2c]⟩⟩ h
      · rw [if_neg h2c]
        rfl
  · rw [if_neg hc]
    rfl

theorem decodeEntities_nil : decodeEntities [] = [] := rfl

/-- Model of `BeautifulSoup(s, "lxml").get_text()` as used on the
description string: remove tag spans, then decode character references. -/
def soupGetText (s : String) : String := ⟨decodeEntities (stripTagsList s.data)⟩

theorem stripTagsList_append_no_lt : ∀ a b : List Char, '<' ∉ a →
    stripTagsList (a ++ b) = a ++ stripTagsList b := by
  intro a
  induction a with
  | nil => intro b _; simp
  | cons c as ih =>
    intro b h
    have hc : c ≠ '<' := fun hh => h (hh ▸ List.mem_cons_self c as)
    have has : '<' ∉ as := fun hh => h (List.mem_cons_of_mem c hh)
    rw [List.cons_append, stripTagsList_cons, if_neg hc, ih b has, List.cons_append]

theorem decodeEntities_append_no_amp : ∀ a b : List Char, '&' ∉ a →
    decodeEntities (a ++ b) = a ++ decodeEntities b := by
  intro a
  induction a with
  | nil => intro b _; simp
  | cons c as ih =>
    intro b h
    have hc : c ≠ '&' := fun hh => h (hh ▸ List.mem_cons_self c as)
    have has : '&' ∉ as := fun hh => h (List.mem_cons_of_mem c hh)
    rw [List.cons_append,
        decodeEntities_generic c (as ++ b) (fun hq => hc hq.1),
        ih b has, List.cons_append]

theorem stripTagsList_no_lt (l : List Char) (h : '<' ∉ l) : stripTagsList l = l := by
  have := stripTagsList_append_no_lt l [] h
  simpa [stripTagsList_nil] using this

theorem decodeEntities_no_amp (l : List Char) (h : '&' ∉ l) : decodeEntities l = l := by
  have := decodeEntities_append_no_amp l [] h
  simpa [decodeEntities_nil] using this

/-- A string that contains neither `<` nor `&`, on which the `get_text`
model acts as the identity. -/
def plainChars (l : List Char) : Bool := l.all (fun c => c ≠ '<' && c ≠ '&')

theorem plainChars_no_lt {l : List Char} (h : plainChars l = true) : '<' ∉ l := by
  intro hm
  have := List.all_eq_true.mp h _ hm
  simp at this

theorem plainChars_no_amp {l : List Char} (h : plainChars l = true) : '&' ∉ l := by
  intro hm
  have := List.all_eq_true.mp h _ hm
  simp at this

theorem soupGetText_append_plain (s t : String) (h : plainChars s.data = true) :
    soupGetText (s ++ t) = s ++ soupGetText t := by
  unfold soupGetText
  apply String.ext
  simp only [String.data_append]
  rw [stripTagsList_append_no_lt _ _ (plainChars_no_lt h),
      decodeEntities_append_no_amp _ _ (plainChars_no_amp h)]

theorem soupGetText_plain (s : String) (h : plainChars s.data = true) :
    soupGetText s = s := by
  unfold soupGetText
  apply String.ext
  rw [stripTagsList_no_lt _ (plainChars_no_lt h), decodeEntities_no_amp _ (plainChars_no_amp h)]

theorem dropToGt_append_nl : ∀ l : List Char,
    dropToGt (l ++ ['\n']) = (dropToGt l).map (· ++ ['\n']) := by
  intro l
  induction l with
  | nil => rfl
  | cons c rest ih =>
    rw [List.cons_append]
    unfold dropToGt
    split_ifs <;> simp [ih]

theorem stripTagsList_nil_nl : stripTagsList ['\n'] = ['\n'] := by
  have h := stripTagsList_append_no_lt ['\n'] [] (by decide)
  simpa [stripTagsList_nil] using h

theorem stripTagsList_append_nl : ∀ n (l : List Char), l.length ≤ n →
    stripTagsList (l ++ ['\n']) = stripTagsList l ++ ['\n'] := by
  intro n
  induction n with
  | zero =>
    intro l hl
    have : l = [] := List.length_eq_zero.mp (Nat.le_zero.mp hl)
    subst this
    rw [List.nil_append, stripTagsList_nil_nl, stripTagsList_nil, List.nil_append]
  | succ n ih =>
    intro l hl
    cases l with
    | nil => rw [List.nil_append, stripTagsList_nil_nl, stripTagsList_nil, List.nil_append]
    | cons c rest =>
      rw [List.cons_append, stripTagsList_cons, stripTagsList_cons]
      by_cases hc : c = '<'
      · rw [if_pos hc, if_pos hc, dropToGt_append_nl]
        cases h : dropToGt rest with
        | none =>
          simp only [Option.map_none']
          have hr : rest.length ≤ n := by
            simp only [List.length_cons] at hl; omega
          rw [ih rest hr, List.cons_append]
        | some rest' =>
          simp only [Option.map_some']
          have hr : rest'.length ≤ n := by
            have := dropToGt_length rest rest' h
            simp only [List.length_cons] at hl
            omega
          exact ih rest' hr
      · rw [if_neg hc, if_neg hc]
        have hr : rest.length ≤ n := by
          simp only [List.length_cons] at hl; omega
        rw [ih rest hr, List.cons_append]

theorem takeDigits_append_nl : ∀ l : List Char,
    takeDigits (l ++ ['\n']) = ((takeDigits l).1, (takeDigits l).2 ++ ['\n']) := by
  intro l
  induction l with
  | nil => rfl
  | cons c rest ih =>
    rw [List.cons_append]
    unfold takeDigits
    by_cases h : c.isDigit
    · simp [h, ih]
    · simp [h]

theorem dropSemi_append_nl : ∀ l : List Char,
    dropSemi (l ++ ['\n']) = dropSemi l ++ ['\n'] := by
  intro l
  cases l with
  | nil => rfl
  | cons c rest =>
    by_cases h : c = ';'
    · subst h; rfl
    · rw [List.cons_append]
      unfold dropSemi
      split
      · simp_all
      · split
        · simp_all
        · rfl

theorem decodeEntities_nil_nl : decodeEntities ['\n'] = ['\n'] := by
  rw [decodeEntities_generic '\n' [] (fun hq => absurd hq.1 (by decide)), decodeEntities_nil]

theorem decodeEntities_append_nl : ∀ n (l : List Char), l.length ≤ n →
    decodeEntities (l ++ ['\n']) = decodeEntities l ++ ['\n'] := by
  intro n
  induction n with
  | zero =>
    intro l hl
    have : l = [] := List.length_eq_zero.mp (Nat.le_zero.mp hl)
    subst this
    rw [List.nil_append, decodeEntities_nil_nl, decodeEntities_nil, List.nil_append]
  | succ n ih =>
    intro l hl
    cases l with
    | nil => rw [List.nil_append, decodeEntities_nil_nl, decodeEntities_nil, List.nil_append]
    | cons c rest =>
      by_cases hc : c = '&'
      · subst hc
        cases rest with
        | nil =>
          rw [List.cons_append, List.nil_append,
              decodeEntities_generic '&' ['\n']
                (fun hq => absurd (List.cons.injEq _ _ _ _ ▸ hq.2.choose_spec).1 (by decide)),
              decodeEntities_nil_nl,
              decodeEntities_generic '&' [] (fun hq => by simpa using hq.2.choose_spec),
              decodeEntities_nil]
          rfl
        | cons c2 t2 =>
          by_cases h2 : c2 = '#'
          · subst h2
            rw [List.cons_append, List.cons_append, decodeEntities_amp,
                decodeEntities_amp, takeDigits_append_nl]
            cases hta : takeDigits t2 with
            | mk ds rr =>
              cases ds with
              | nil =>
                simp only
                have hr : ('#' :: t2).length ≤ n := by
                  simp only [List.length_cons] at hl ⊢; omega
                rw [← List.cons_append, ih ('#' :: t2) hr]
                simp
              | cons d dtl =>
                simp only
                rw [dropSemi_append_nl]
                have hsum := takeDigits_sum t2
                rw [hta] at hsum
                have hr : (dropSemi rr).length ≤ n := by
                  have := dropSemi_length rr
                  simp only [List.length_cons] at hl hsum
                  omega
                rw [ih (dropSemi rr) hr]
                simp
          · rw [List.cons_append, List.cons_append,
                decodeEntities_generic '&' (c2 :: (t2 ++ ['\n']))
                  (fun hq => absurd (List.cons.injEq _ _ _ _ ▸ hq.2.choose_spec).1 h2),
                decodeEntities_generic '&' (c2 :: t2)
                  (fun hq => absurd (List.cons.injEq _ _ _ _ ▸ hq.2.choose_spec).1 h2),
                ← List.cons_append]
            have hr : (c2 :: t2).length ≤ n := by
              simp only [List.length_cons] at hl ⊢; omega
            rw [ih (c2 :: t2) hr]
            rfl
      · rw [List.cons_append,
            decodeEntities_generic c (rest ++ ['\n']) (fun hq => hc hq.1),
            decodeEntities_generic c rest (fun hq => hc hq.1)]
        have hr : rest.length ≤ n := by
          simp only [List.length_cons] at hl; omega
        rw [ih rest hr]
        rfl

/-- `get_text` keeps a trailing newline: the composed description string
always ends in `"\n"` and the newline survives both model passes. -/
theorem soupGetText_append_nl (s : String) :
    soupGetText (s ++ "\n") = soupGetText s ++ "\n" := by
  unfold soupGetText
  apply String.ext
  simp only [String.data_append]
  rw [stripTagsList_append_nl s.data.length s.data (Nat.le_refl _),
      decodeEntities_append_nl (stripTagsList s.data).length _ (Nat.le_refl _)]

/-! ### The image acceptance filter (`web_parser/data_checkers.py`)

An `img` tag is modelled by the four attributes the checkers read:
`src`, `alt`, `srcset` (each `tag.get(...)`, absent → `none`) and the
name of the parent element (`tag.findParent().name`). -/

structure Tag where
  src : Option String
  alt : Option String
  srcset : Option String
  parentName : String
deriving Repr, DecidableEq

/-- `CaptionHrefChecker.check`: a truthy caption containing `href`. -/
def captionHrefChecker (t : Tag) : Bool :=
  match t.alt with
  | some caption => if caption ≠ "" then strContains caption "href" else false
  | none => false

/-- `\d{1,2}0` as a prefix of `l` (one or two digits, then a literal
zero) — tail of the `Icons` pattern. -/
def iconsTail (l : List Char) : Bool :=
  match l with
  | d1 :: c2 :: rest2 =>
    (d1.isDigit && c2 = '0') ||
      (d1.isDigit && c2.isDigit && (match rest2 with | c3 :: _ => c3 = '0' | [] => false))
  | _ => false

/-- `(:|x)\d{1,2}0` as a prefix of `l`. -/
def iconsSepTail (l : List Char) : Bool :=
  match l with
  | c :: rest => (c = ':' || c = 'x') && iconsTail rest
  | [] => false

/-- The `Icons` regex `\d0{1,2}(:|x)\d{1,2}0` matched at the head of `l`. -/
def iconsAt (l : List Char) : Bool :=
  match l with
  | d :: '0' :: rest =>
    d.isDigit && (iconsSepTail rest ||
      (match rest with
       | '0' :: rest2 => iconsSepTail rest2
       | _ => false))
  | _ => false

/-- `re.search` of the `Icons` pattern: a match starting anywhere. -/
def iconsSearch : List Char → Bool
  | [] => false
  | c :: rest => iconsAt (c :: rest) || iconsSearch rest

/-- `Icons.check`: the icon-dimensions pattern occurs in the source URL. -/
def iconsChecker (t : Tag) : Bool := iconsSearch (t.src.getD "").data

/-- `StatsResearchLinks.check`: a tracking-domain substring in the URL. -/
def statsResearchLinks (t : Tag) : Bool :=
  ["stats", "scorecardresearch", "noscript", "top-fwz1", "mc.yandex.ru"].any
    (fun site => strContains (t.src.getD "") site)

/-- `ImageBBCComNotSrc.check`: `bbc` in the URL and (no `srcset`
attribute, or `line` in the URL). -/
def imageBBCComNotSrc (t : Tag) : Bool :=
  if strContains (t.src.getD "") "bbc" then
    if t.srcset = none then true
    else strContains (t.src.getD "") "line"
  else false

/-- `ImageDoubleColon.check`: `::` in the URL. -/
def imageDoubleColon (t : Tag) : Bool := strContains (t.src.getD "") "::"

/-- The class-level mutable state of `ImageDuplicateChecker`:
`instance = None` / `duplicates = set()` in the source.  It is one shared
value for the whole process; the flag identifies the `WebParser` instance
whose scan last touched it. -/
structure DupState where
  inst : Option Nat
  duplicates : List String
deriving Repr, DecidableEq

/-- `ImageDuplicateChecker.check`: reset the shared set when the flag
changes hands, then test-and-add the URL. -/
def imageDuplicateChecker (st : DupState) (flag : Nat) (t : Tag) : Bool × DupState :=
  let image := t.src.getD ""
  let st1 := if st.inst = none ∨ st.inst ≠ some flag then ⟨some flag, []⟩ else st
  if image ∈ st1.duplicates then (true, st1)
  else (false, ⟨st1.inst, image :: st1.duplicates⟩)

/-- `NewsPageLogoChecker.check`: the parent element is a hyperlink. -/
def newsPageLogoChecker (t : Tag) : Bool := t.parentName = "a"

/-- `ImageExtensionChecker.check`: URL ends with `gif` or `svg`. -/
def imageExtensionChecker (t : Tag) : Bool :=
  strEndsWith (t.src.getD "") "gif" || strEndsWith (t.src.getD "") "svg"

/-- `NoImageExistenceChecker.check`: `not bool(image)` — absent or empty
source attribute. -/
def noImageExistenceChecker (t : Tag) : Bool :=
  match t.src with
  | none => true
  | some s => s = ""

/-- The closed set of rejection rules of `html_image_checker`, in source
order (`classes_to_check`). -/
inductive ImgChecker
  | noImage | extension | logo | duplicate | doubleColon | bbc | stats | icons
deriving DecidableEq, Repr

def runChecker : ImgChecker → Tag → Nat → DupState → Bool × DupState
  | .noImage, t, _, st => (noImageExistenceChecker t, st)
  | .extension, t, _, st => (imageExtensionChecker t, st)
  | .logo, t, _, st => (newsPageLogoChecker t, st)
  | .duplicate, t, flag, st => imageDuplicateChecker st flag t
  | .doubleColon, t, _, st => (imageDoubleColon t, st)
  | .bbc, t, _, st => (imageBBCComNotSrc t, st)
  | .stats, t, _, st => (statsResearchLinks t, st)
  | .icons, t, _, st => (iconsChecker t, st)

def imgCheckersOrder : List ImgChecker :=
  [.noImage, .extension, .logo, .duplicate, .doubleColon, .bbc, .stats, .icons]

/-- The `for class_name in classes_to_check` loop: first rejection wins. -/
def runCheckers : List ImgChecker → Tag → Nat → DupState → Bool × DupState
  | [], _, _, st => (false, st)
  | c :: cs, t, flag, st =>
    match runChecker c t flag st with
    | (true, st') => (true, st')
    | (false, st') => runCheckers cs t flag st'

/-- `html_image_checker`: accept iff no rule rejects. -/
def htmlImageChecker (t : Tag) (flag : Nat) (st : DupState) : Bool × DupState :=
  match runCheckers imgCheckersOrder t flag st with
  | (rejected, st') => (!rejected, st')

/-- `html_caption_checker`. -/
def htmlCaptionChecker (t : Tag) : Bool := !captionHrefChecker t

/-- `html_data_checker`: image rules, then the caption rule. -/
def htmlDataChecker (t : Tag) (flag : Nat) (st : DupState) : Bool × DupState :=
  match htmlImageChecker t flag st with
  | (true, st') => (htmlCaptionChecker t, st')
  | (false, st') => (false, st')

/-! Proof helpers for the filter. -/

/-- The three rules evaluated before the duplicate rule. -/
def preReject (t : Tag) : Bool :=
  noImageExistenceChecker t || imageExtensionChecker t || newsPageLogoChecker t

/-- The four rules evaluated after the duplicate rule. -/
def postReject (t : Tag) : Bool :=
  imageDoubleColon t || imageBBCComNotSrc t || statsResearchLinks t || iconsChecker t

/-- The boolean a rule yields against a fixed incoming state. -/
def checkBool (c : ImgChecker) (t : Tag) (flag : Nat) (st : DupState) : Bool :=
  (runChecker c t flag st).1

theorem runChecker_state_pure (c : ImgChecker) (t : Tag) (flag : Nat) (st : DupState)
    (h : c ≠ .duplicate) : (runChecker c t flag st).2 = st := by
  cases c <;> first | rfl | exact absurd rfl h

theorem checkBool_pure_indep (c : ImgChecker) (t : Tag) (flag : Nat) (st st' : DupState)
    (h : c ≠ .duplicate) : checkBool c t flag st = checkBool c t flag st' := by
  cases c <;> first | rfl | exact absurd rfl h

theorem imageDuplicateChecker_reset (st : DupState) (flag : Nat) (t : Tag)
    (h : st.inst ≠ some flag) :
    imageDuplicateChecker st flag t = (false, ⟨some flag, [t.src.getD ""]⟩) := by
  unfold imageDuplicateChecker
  rw [if_pos (Or.inr h)]
  simp

theorem imageDuplicateChecker_inst (st : DupState) (flag : Nat) (t : Tag) :
    ((imageDuplicateChecker st flag t).2).inst = st.inst ∨
      ((imageDuplicateChecker st flag t).2).inst = some flag := by
  unfold imageDuplicateChecker
  by_cases h : st.inst = none ∨ st.inst ≠ some flag
  · rw [if_pos h]
    by_cases hm : (t.src.getD "") ∈ ([] : List String)
    · simp at hm
    · simp
  · rw [if_neg h]
    simp only
    by_cases hm : (t.src.getD "") ∈ st.duplicates <;> simp [hm]

theorem runChecker_inst (c : ImgChecker) (t : Tag) (flag : Nat) (st : DupState) :
    ((runChecker c t flag st).2).inst = st.inst ∨
      ((runChecker c t flag st).2).inst = some flag := by
  cases c
  case duplicate => exact imageDuplicateChecker_inst st flag t
  all_goals exact Or.inl rfl

theorem runCheckers_inst : ∀ (l : List ImgChecker) (t : Tag) (flag : Nat) (st : DupState),
    ((runCheckers l t flag st).2).inst = st.inst ∨
      ((runCheckers l t flag st).2).inst = some flag := by
  intro l
  induction l with
  | nil => intro t flag st; exact Or.inl rfl
  | cons c cs ih =>
    intro t flag st
    unfold runCheckers
    cases hr : runChecker c t flag st with
    | mk b st' =>
      have hinst : st'.inst = st.inst ∨ st'.inst = some flag := by
        have := runChecker_inst c t flag st
        rw [hr] at this
        exact this
      cases b
      · simp only
        rcases ih t flag st' with h | h
        · rcases hinst with h2 | h2
          · exact Or.inl (h.trans h2)
          · exact Or.inr (h.trans h2)
        · exact Or.inr h
      · simp only
        exact hinst

theorem anyCongr {α : Type} (l : List α) (f g : α → Bool) (h : ∀ x ∈ l, f x = g x) :
    l.any f = l.any g := by
  induction l with
  | nil => rfl
  | cons c cs ih =>
    simp only [List.any_cons]
    rw [h c (List.mem_cons_self c cs), ih (fun x hx => h x (List.mem_cons_of_mem c hx))]

/-- Against a fixed incoming state, the loop's boolean is the disjunction
of the individual rules' booleans whenever no rule occurs twice. -/
theorem runCheckers_any : ∀ (l : List ImgChecker), l.Nodup → ∀ (t : Tag) (flag : Nat) (st : DupState),
    (runCheckers l t flag st).1 = l.any (fun c => checkBool c t flag st) := by
  intro l
  induction l with
  | nil => intro _ t flag st; rfl
  | cons c cs ih =>
    intro hnd t flag st
    unfold runCheckers
    cases hr : runChecker c t flag st with
    | mk b st' =>
      have hcb : checkBool c t flag st = b := by unfold checkBool; rw [hr]
      cases b with
      | true => simp [List.any_cons, hcb]
      | false =>
        simp only [List.any_cons, hcb, Bool.false_or]
        have hnd' := List.nodup_cons.mp hnd
        by_cases hdup : c = ImgChecker.duplicate
        · subst hdup
          rw [ih hnd'.2 t flag st']
          exact anyCongr cs _ _ (fun x hx =>
            checkBool_pure_indep x t flag st' st (fun he => hnd'.1 (he ▸ hx)))
        · have hst : st' = st := by
            have := runChecker_state_pure c t flag st hdup
            rw [hr] at this
            exact this
          rw [hst, ih hnd'.2 t flag st]

/-- The loop's boolean outcome is invariant under reordering the rule
list: for a single candidate the rules are evaluated at most once each,
so which rule fires first changes only the state, not the verdict. -/
theorem runCheckers_perm (l : List ImgChecker) (hp : l.Perm imgCheckersOrder)
    (t : Tag) (flag : Nat) (st : DupState) :
    (runCheckers l t flag st).1 = (runCheckers imgCheckersOrder t flag st).1 := by
  have hnd : imgCheckersOrder.Nodup := by decide
  have hnd' : l.Nodup := hp.nodup_iff.mpr hnd
  rw [runCheckers_any l hnd' t flag st, runCheckers_any imgCheckersOrder hnd t flag st]
  have h1 : (l.any (fun c => checkBool c t flag st) = true) ↔
      (imgCheckersOrder.any (fun c => checkBool c t flag st) = true) := by
    simp only [List.any_eq_true]
    constructor
    · rintro ⟨x, hx, hfx⟩
      exact ⟨x, hp.mem_iff.mp hx, hfx⟩
    · rintro ⟨x, hx, hfx⟩
      exact ⟨x, hp.mem_iff.mpr hx, hfx⟩
  by_cases hb : l.any (fun c => checkBool c t flag st) = true
  · rw [hb, h1.mp hb]
  · have hb2 : ¬imgCheckersOrder.any (fun c => checkBool c t flag st) = true :=
      fun hh => hb (h1.mpr hh)
    rw [Bool.not_eq_true] at hb hb2
    rw [hb, hb2]

/-- Full evaluation of the rule chain from a state the current scan has
not yet touched (`instance != flag`): the duplicate rule resets the
shared set, so it cannot fire, and the verdict is decided by the pure
rules alone. -/
theorem runCheckers_order_reset (t : Tag) (flag : Nat) (st : DupState)
    (h : st.inst ≠ some flag) :
    runCheckers imgCheckersOrder t flag st =
      if preReject t then (true, st)
      else (postReject t, ⟨some flag, [t.src.getD ""]⟩) := by
  cases hb1 : noImageExistenceChecker t <;>
    cases hb2 : imageExtensionChecker t <;>
      cases hb3 : newsPageLogoChecker t <;>
        cases hb4 : imageDoubleColon t <;>
          cases hb5 : imageBBCComNotSrc t <;>
            cases hb6 : statsResearchLinks t <;>
              cases hb7 : iconsChecker t <;>
                simp_all [imgCheckersOrder, runCheckers, runChecker, preReject, postReject,
                  imageDuplicateChecker_reset st flag t h]

theorem htmlImageChecker_reset (t : Tag) (flag : Nat) (st : DupState)
    (h : st.inst ≠ some flag) :
    htmlImageChecker t flag st =
      if preReject t then (false, st)
      else (!postReject t, ⟨some flag, [t.src.getD ""]⟩) := by
  unfold htmlImageChecker
  rw [runCheckers_order_reset t flag st h]
  by_cases hp : preReject t <;> simp [hp]

theorem htmlDataChecker_reset (t : Tag) (flag : Nat) (st : DupState)
    (h : st.inst ≠ some flag) :
    htmlDataChecker t flag st =
      if preReject t then (false, st)
      else ((!postReject t) && htmlCaptionChecker t, ⟨some flag, [t.src.getD ""]⟩) := by
  unfold htmlDataChecker
  rw [htmlImageChecker_reset t flag st h]
  by_cases hp : preReject t
  · simp [hp]
  · cases hq : postReject t <;> simp [hp, hq]

theorem htmlDataChecker_inst (t : Tag) (flag : Nat) (st : DupState) :
    ((htmlDataChecker t flag st).2).inst = st.inst ∨
      ((htmlDataChecker t flag st).2).inst = some flag := by
  unfold htmlDataChecker htmlImageChecker
  have := runCheckers_inst imgCheckersOrder t flag st
  cases hr : runCheckers imgCheckersOrder t flag st with
  | mk b st' =>
    rw [hr] at this
    cases b <;> cases hc : htmlCaptionChecker t <;> simp_all

/-- The boolean of `html_image_checker` from an arbitrary shared state:
reject iff one of the eight rules fires against the incoming state. -/
theorem htmlImageChecker_bool (t : Tag) (flag : Nat) (st : DupState) :
    (htmlImageChecker t flag st).1 =
      !(preReject t || (imageDuplicateChecker st flag t).1 || postReject t) := by
  cases hd : imageDuplicateChecker st flag t with
  | mk db dst =>
    cases hb1 : noImageExistenceChecker t <;>
      cases hb2 : imageExtensionChecker t <;>
        cases hb3 : newsPageLogoChecker t <;>
          cases db <;>
            cases hb4 : imageDoubleColon t <;>
              cases hb5 : imageBBCComNotSrc t <;>
                cases hb6 : statsResearchLinks t <;>
                  cases hb7 : iconsChecker t <;>
                    simp_all [htmlImageChecker, imgCheckersOrder, runCheckers, runChecker,
                      preReject, postReject]

/-! ### The page fetcher and image resolver (`web_parser/web_parser.py`)

`requests.get(url)` either returns a response (only its status code is
ever read) or raises a connection-level exception
(`MissingSchema` / `InvalidSchema` / `ConnectionError`), modelled by
`NetResult.connErr`.  A parsed HTML page is modelled by the facts the
code reads from the soup: the `img` tags, the `href` values of the `a`
tags, and the values each of the five description extractors would
produce (each already wrapped by `suppress_exceptions`, so an absent or
failing extractor is `none`). -/

inductive NetResult
  | ok (status : Nat)
  | connErr
deriving Repr, DecidableEq

/-- The network: what `requests.get` does at each URL. -/
def Net : Type := String → NetResult

structure Page where
  imgTags : List Tag
  aHrefs : List (Option String)
  metaDescription : Option String
  pLead : Option String
  ogDescription : Option String
  titleTag : Option String
  headerTwo : Option String
deriving Repr, DecidableEq

/-- The web: the parsed page `BeautifulSoup` yields for a fetched URL. -/
def Web : Type := String → Page

/-- Split at the first occurrence of `sep`:
`some (before, after)`, or `none` when `sep` does not occur. -/
def breakOnSep (sep : List Char) : List Char → Option (List Char × List Char)
  | [] => none
  | c :: rest =>
    if sep.isPrefixOf (c :: rest) then some ([], (c :: rest).drop sep.length)
    else
      match breakOnSep sep rest with
      | some (p, s) => some (c :: p, s)
      | none => none

/-- `urlparse(page_url).scheme` for a well-formed absolute URL (empty
when the URL has no `://`, as `urlparse` gives for a bare path). -/
def urlScheme (u : String) : String :=
  match breakOnSep [':', '/', '/'] u.data with
  | some (p, _) => ⟨p⟩
  | none => ""

/-- `urlparse(page_url).netloc` for a well-formed absolute URL: the part
between `://` and the next `/`. -/
def urlNetloc (u : String) : String :=
  match breakOnSep [':', '/', '/'] u.data with
  | some (_, rest) => ⟨rest.takeWhile (fun c => c ≠ '/')⟩
  | none => ""

/-- `get_nested_url`: prepend `scheme://netloc/` to the tag's source and
probe it; `404` means "does not exist".  The probe is *not* wrapped in a
handler, so a connection error raises out of the caller. -/
def getNestedUrl (net : Net) (pageUrl : String) (t : Tag) : Except String (Option String) :=
  let nestedUrl := urlScheme pageUrl ++ "://" ++ urlNetloc pageUrl ++ "/" ++ t.src.getD ""
  match net nestedUrl with
  | NetResult.connErr => Except.error "ConnectionError"
  | NetResult.ok status => if status = 404 then Except.ok none else Except.ok (some nestedUrl)

/-- `get_img_data`: run the checker chain, resolve a root-relative URL,
then probe the final URL; the probe's connection-level errors are caught
and yield `(None, None)`.  The first component is the `(image_url,
caption)` pair (`none` for `(None, None)`), the second the shared
duplicate-checker state afterwards. -/
def getImgData (net : Net) (pageUrl : String) (flag : Nat) (st : DupState) (t : Tag) :
    Except String (Option (String × Option String)) × DupState :=
  match htmlDataChecker t flag st with
  | (true, st') =>
    (match getNestedUrl net pageUrl t with
     | Except.error e => (Except.error e, st')
     | Except.ok nestedUrl =>
       let imageUrl := match nestedUrl with
         | some n => if strEndsWith n "jpg" || strEndsWith n "png" then n else t.src.getD ""
         | none => t.src.getD ""
       match net imageUrl with
       | NetResult.connErr => (Except.ok none, st')
       | NetResult.ok _ => (Except.ok (some (imageUrl, t.alt)), st'))
  | (false, st') => (Except.ok none, st')

/-- `WebParser._collect_img_tag_images`: scan the `img` tags in document
order, keeping pairs whose `image_url` is truthy. -/
def collectImgTagImages (net : Net) (pageUrl : String) (flag : Nat) :
    List Tag → DupState → Except String (List (String × Option String)) × DupState
  | [], st => (Except.ok [], st)
  | t :: rest, st =>
    match getImgData net pageUrl flag st t with
    | (Except.error e, st') => (Except.error e, st')
    | (Except.ok res, st') =>
      match collectImgTagImages net pageUrl flag rest st' with
      | (Except.error e, st'') => (Except.error e, st'')
      | (Except.ok acc, st'') =>
        match res with
        | some (u, c) => if u ≠ "" then (Except.ok ((u, c) :: acc), st'') else (Except.ok acc, st'')
        | none => (Except.ok acc, st'')

/-- `WebParser._collect_a_href_tag_images`: every `a` whose truthy `href`
ends in `.jpg` or `.png`, taken with an empty caption and with no
checker or duplicate bookkeeping. -/
def collectAHrefTagImages (aHrefs : List (Option String)) : List (String × Option String) :=
  aHrefs.filterMap fun h =>
    match h with
    | some a =>
      if a ≠ "" && (strEndsWith a ".jpg" || strEndsWith a ".png") then some (a, some "") else none
    | none => none

/-- `WebParser.form_img_data`: image-tag candidates first, then the
hyperlink-derived candidates. -/
def formImgData (net : Net) (pageUrl : String) (page : Page) (flag : Nat) (st : DupState) :
    Except String (List (String × Option String)) × DupState :=
  match collectImgTagImages net pageUrl flag page.imgTags st with
  | (Except.error e, st') => (Except.error e, st')
  | (Except.ok imgs, st') => (Except.ok (imgs ++ collectAHrefTagImages page.aHrefs), st')

/-- `WebParser.form_description`: the first truthy extractor in fixed
priority order, else `soup.title.string` (whose absence raises). -/
def formPageDescription (page : Page) : Except String String :=
  let formers : List (Option String) :=
    [page.metaDescription, page.pLead, page.ogDescription.map stripTagsStr,
     page.titleTag, page.headerTwo]
  match formers.find? (fun d => d.getD "" ≠ "") with
  | some (some s) => Except.ok s
  | _ =>
    match page.titleTag with
    | some s => Except.ok s
    | none => Except.error "AttributeError"

/-! ### The article enricher (`news_object.py`)

One feed `item` tag.  `title` and `pubDate` are present (their absence
would crash every run and is outside the claims); `link` is `none` when
the `<link>` tag is missing (the `AttributeError` branch of
`_collect_img_data`); `description` is `none` when the `<description>`
tag is missing or has no string content — BeautifulSoup's `.string` is
`None` for an empty tag, and the code treats both identically. -/

structure RssItem where
  title : String
  pubDate : String
  link : Option String
  description : Option String
deriving Repr, DecidableEq

/-- What `NewsObject.__init__` stores for `form_news` to use:
`_img_data_container` (`none` when the item has no link), `_html_url`,
and the `WebParser` instance's parsed page (absent when no parser was
created). -/
structure TaskResult where
  imgData : Option (List (String × Option String))
  htmlUrl : Option String
  parserPage : Option Page
deriving Repr, DecidableEq

/-- The dictionary `NewsObject.news_container` after `form_news`; `links`
keeps the dict's insertion order. -/
structure NewsContainer where
  feed : String
  title : String
  date : String
  link : String
  description : String
  links : List (String × String)
deriving Repr, DecidableEq

/-- `NewsObject._collect_img_data` (run inside the executor task): catch
only the missing-`<link>` `AttributeError`; otherwise construct the
`WebParser` (whose unguarded `requests.get` may raise) and scan the page.
`flag` is the identity of the `WebParser` instance used as
`instance_flag`; `st` is the shared class-level duplicate state. -/
def collectImgData (net : Net) (web : Web) (flag : Nat) (st : DupState) (item : RssItem) :
    Except String TaskResult × DupState :=
  match item.link with
  | none => (Except.ok ⟨none, none, none⟩, st)
  | some url =>
    match net url with
    | NetResult.connErr => (Except.error "ConnectionError", st)
    | NetResult.ok _ =>
      match formImgData net url (web url) flag st with
      | (Except.error e, st') => (Except.error e, st')
      | (Except.ok imgs, st') => (Except.ok ⟨some imgs, some url, some (web url)⟩, st')

/-- The image-caption markers of `_form_description`: one
`[image {counter}: {caption}][{counter}]` per collected pair, the counter
starting at `counter`. -/
def markersText : List (String × Option String) → Nat → String
  | [], _ => ""
  | (_, cap) :: rest, counter =>
    let caption := match cap with
      | some s => if s ≠ "" then s else "no description"
      | none => "no description"
    "[image " ++ toString counter ++ ": " ++ caption ++ "][" ++ toString counter ++ "]" ++
      markersText rest (counter + 1)

/-- `NewsObject._form_description` before the final `BeautifulSoup`
pass: markers for the collected images, then the markup-stripped rss
description, or the page description when the rss tag yields nothing
(that call crashes with `AttributeError` when no parser exists). -/
def formDescriptionField (tr : TaskResult) (item : RssItem) : Except String String :=
  let description := match tr.imgData with
    | some l => markersText l 2
    | none => ""
  match item.description with
  | some rss => Except.ok (description ++ (stripTagsStr rss ++ "\n"))
  | none =>
    match tr.parserPage with
    | none => Except.error "AttributeError"
    | some page =>
      match formPageDescription page with
      | Except.error e => Except.error e
      | Except.ok d => Except.ok (description ++ (d ++ "\n"))

/-- The numbered image entries of `_form_links`, counter starting at
`counter`. -/
def linksEntries : List (String × Option String) → Nat → List (String × String)
  | [], _ => []
  | (u, _) :: rest, counter =>
    ("[" ++ toString counter ++ "]", u ++ " (image)") :: linksEntries rest (counter + 1)

/-- `NewsObject._form_links`. -/
def formLinks (tr : TaskResult) : List (String × String) :=
  match tr.imgData with
  | some l => ("[1]", tr.htmlUrl.getD "" ++ " (link)") :: linksEntries l 2
  | none => [("[1]", "Rss news doesn't provide link")]

/-- `NewsObject.form_news` (header, description, links), given the data
the constructor collected.  `parseDate` models
`str(dateutil_parser.parse(s, ignoretz=True))`. -/
def newsObjectForm (parseDate : String → String) (feedTitle : String) (item : RssItem)
    (tr : TaskResult) : Except String NewsContainer :=
  let newsLink := match tr.imgData with
    | some _ => item.link.getD ""
    | none => "Rss news doesn't provide link"
  match formDescriptionField tr item with
  | Except.error e => Except.error e
  | Except.ok descr =>
    Except.ok
      { feed := feedTitle ++ "\n"
        title := item.title
        date := parseDate item.pubDate
        link := newsLink ++ "\n"
        description := soupGetText descr
        links := formLinks tr }

/-- One article's enrichment in isolation: construct the `NewsObject`
from a fresh duplicate state and run `form_news`. -/
def enrichOne (net : Net) (web : Web) (parseDate : String → String) (feedTitle : String)
    (flag : Nat) (item : RssItem) : Except String NewsContainer :=
  match (collectImgData net web flag ⟨none, []⟩ item).1 with
  | Except.error e => Except.error e
  | Except.ok tr => newsObjectForm parseDate feedTitle item tr

/-! ### The concurrent batch former (`parser_management.py`) -/

/-- `ParserNewsFormer._form_news_limit`. -/
def formNewsLimit {α : Type} (newsLimit : Option Nat) (listOfNews : List α) : Nat :=
  let newsOnPage := listOfNews.length
  match newsLimit with
  | none => newsOnPage
  | some l => if l > newsOnPage then newsOnPage else l

/-- `ParserNewsFormer._form_news_list_by_date`.  `parseDateOnly` models
`str(dateutil_parser.parse(s, ignoretz=True).date())`. -/
def formNewsListByDate (parseDateOnly : String → String) (newsLimit : Option Nat)
    (newsDate : String) (listOfAllNews : List RssItem) : Except String (List RssItem) :=
  let reformattedDate := parseDateOnly newsDate
  let listOfPublicationDates := listOfAllNews.map (fun n => parseDateOnly n.pubDate)
  if reformattedDate ∈ listOfPublicationDates then
    let suitable := (listOfAllNews.zip listOfPublicationDates).filterMap
      (fun p => if p.2 = reformattedDate then some p.1 else none)
    Except.ok (suitable.take (formNewsLimit newsLimit suitable))
  else Except.error "error: no news for the specified date"

/-- `ParserNewsFormer._form_news_list`. -/
def formNewsList (parseDateOnly : String → String) (newsLimit : Option Nat)
    (newsDate : Option String) (listOfAllNews : List RssItem) : Except String (List RssItem) :=
  match newsDate with
  | none => Except.ok (listOfAllNews.take (formNewsLimit newsLimit listOfAllNews))
  | some d => formNewsListByDate parseDateOnly newsLimit d listOfAllNews

/-- The worker pool: the submitted `NewsObject` constructions run in an
arbitrary completion order (`schedule`, a permutation of the submission
indices), threading the one shared class-level duplicate state through
them; each future records its task's outcome under its submission
index.  Task `i` uses its own `WebParser` identity `i` as the
duplicate-checker flag. -/
def runSchedule (net : Net) (web : Web) (items : List RssItem) :
    List Nat → DupState → List (Nat × Except String TaskResult) × DupState
  | [], st => ([], st)
  | i :: rest, st =>
    match items.get? i with
    | none => runSchedule net web items rest st
    | some item =>
      match collectImgData net web i st item with
      | (r, st') =>
        match runSchedule net web items rest st' with
        | (l, st'') => ((i, r) :: l, st'')

/-- `executor_result.result()`: the recorded outcome of future `i`. -/
def lookupResult (i : Nat) (results : List (Nat × Except String TaskResult)) :
    Option (Except String TaskResult) :=
  (results.find? (fun p => p.1 = i)).map (fun p => p.2)

/-- The `for executor_result in executor_pool` loop of `form_news`:
retrieve the futures in submission order (re-raising a stored
exception), run `form_news` on each object, append to `news_storage`. -/
def collectNews (parseDate : String → String) (feedTitle : String) :
    List (Nat × RssItem) → List (Nat × Except String TaskResult) →
      Except String (List NewsContainer)
  | [], _ => Except.ok []
  | (i, item) :: rest, results =>
    match lookupResult i results with
    | none => Except.error "future missing"
    | some (Except.error e) => Except.error e
    | some (Except.ok tr) =>
      match newsObjectForm parseDate feedTitle item tr with
      | Except.error e => Except.error e
      | Except.ok c =>
        match collectNews parseDate feedTitle rest results with
        | Except.error e => Except.error e
        | Except.ok cs => Except.ok (c :: cs)

/-- `ParserNewsFormer.form_news` over the already-selected `items`, with
the pool completing tasks in the order `schedule` and the shared
duplicate state starting at `st₀`. -/
def formNews (net : Net) (web : Web) (parseDate : String → String) (feedTitle : String)
    (items : List RssItem) (schedule : List Nat) (st₀ : DupState) :
    Except String (List NewsContainer) :=
  match runSchedule net web items schedule st₀ with
  | (results, _) => collectNews parseDate feedTitle items.enum results

/-- Positional per-item enrichment: what the batch should produce — each
selected item enriched independently, in selection order. -/
def enrichAll (net : Net) (web : Web) (parseDate : String → String) (feedTitle : String) :
    List (Nat × RssItem) → Except String (List NewsContainer)
  | [] => Except.ok []
  | (i, item) :: rest =>
    match enrichOne net web parseDate feedTitle i item with
    | Except.error e => Except.error e
    | Except.ok c =>
      match enrichAll net web parseDate feedTitle rest with
      | Except.error e => Except.error e
      | Except.ok cs => Except.ok (c :: cs)

/-- The selection plus the concurrent enrichment: `_form_news_list`
followed by `form_news`. -/
def formBatch (net : Net) (web : Web) (parseDate parseDateOnly : String → String)
    (feedTitle : String) (items : List RssItem) (newsLimit : Option Nat)
    (newsDate : Option String) (schedule : List Nat) (st₀ : DupState) :
    Except String (List NewsContainer) :=
  match formNewsList parseDateOnly newsLimit newsDate items with
  | Except.error e => Except.error e
  | Except.ok selected => formNews net web parseDate feedTitle selected schedule st₀

/-! ### Rule-level characterizations for the acceptance filter -/

theorem noImage_iff (t : Tag) :
    noImageExistenceChecker t = true ↔ (t.src = none ∨ t.src = some "") := by
  unfold noImageExistenceChecker
  cases t.src with
  | none => simp
  | some s => simp [decide_eq_true_eq]

theorem dupBool_iff (st : DupState) (flag : Nat) (t : Tag) :
    (imageDuplicateChecker st flag t).1 = true ↔
      (t.src.getD "") ∈
        (if st.inst = none ∨ st.inst ≠ some flag then ([] : List String) else st.duplicates) := by
  unfold imageDuplicateChecker
  by_cases hc : st.inst = none ∨ st.inst ≠ some flag
  · rw [if_pos hc, if_pos hc]
    simp
  · rw [if_neg hc, if_neg hc]
    by_cases hm : (t.src.getD "") ∈ st.duplicates <;> simp [hm]

theorem bbc_iff (t : Tag) :
    imageBBCComNotSrc t = true ↔
      (strContains (t.src.getD "") "bbc" = true ∧
        (t.srcset = none ∨ strContains (t.src.getD "") "line" = true)) := by
  unfold imageBBCComNotSrc
  by_cases hb : strContains (t.src.getD "") "bbc" = true
  · rw [if_pos hb]
    by_cases hs : t.srcset = none
    · simp [hs, hb]
    · simp [hs, hb]
  · rw [Bool.not_eq_true] at hb
    simp [hb]

theorem stats_iff (t : Tag) :
    statsResearchLinks t = true ↔
      ∃ site ∈ ["stats", "scorecardresearch", "noscript", "top-fwz1", "mc.yandex.ru"],
        strContains (t.src.getD "") site = true := by
  unfold statsResearchLinks
  rw [List.any_eq_true]

theorem iconsSearch_append (p : List Char) :
    ∀ l, iconsSearch l = true → iconsSearch (p ++ l) = true := by
  induction p with
  | nil => intro l h; simpa using h
  | cons c cs ih =>
    intro l h
    rw [List.cons_append]
    unfold iconsSearch
    rw [Bool.or_eq_true]
    exact Or.inr (ih l h)

theorem iconsAt_200x200 (suf : List Char) :
    iconsAt ('2' :: '0' :: '0' :: 'x' :: '2' :: '0' :: '0' :: suf) = true := by
  simp [iconsAt, iconsSepTail, iconsTail]

theorem contains_200x200_icons (u : String) (h : strContains u "200x200" = true) :
    iconsSearch u.data = true := by
  unfold strContains at h
  rcases (listInfix_iff _ u.data).mp h with ⟨p, s, hps⟩
  rw [hps]
  have hmatch : iconsSearch (("200x200" : String).data ++ s) = true := by
    show iconsSearch ('2' :: '0' :: '0' :: 'x' :: '2' :: '0' :: '0' :: s) = true
    unfold iconsSearch
    rw [Bool.or_eq_true]
    exact Or.inl (iconsAt_200x200 s)
  rw [List.append_assoc]
  exact iconsSearch_append p _ hmatch

/-- C7: the image acceptance filter rejects a candidate iff at least one
of the eight rejection rules holds (missing source, prohibited
extension, hyperlink parent, session duplicate, `::`, BBC rule,
tracking-domain substring, icon-dimension pattern), evaluated
short-circuit in that fixed order; the boolean outcome is invariant
under reordering the rule list; in particular a source URL ending in
`.gif` is rejected, and a source URL containing `200x200` is rejected. -/
theorem C7_image_filter_rules :
    (∀ (t : Tag) (flag : Nat) (st : DupState),
      (htmlImageChecker t flag st).1 = false ↔
        ((t.src = none ∨ t.src = some "")
          ∨ (strEndsWith (t.src.getD "") "gif" = true ∨ strEndsWith (t.src.getD "") "svg" = true)
          ∨ t.parentName = "a"
          ∨ (t.src.getD "") ∈
              (if st.inst = none ∨ st.inst ≠ some flag then ([] : List String) else st.duplicates)
          ∨ strContains (t.src.getD "") "::" = true
          ∨ (strContains (t.src.getD "") "bbc" = true ∧
              (t.srcset = none ∨ strContains (t.src.getD "") "line" = true))
          ∨ (∃ site ∈ ["stats", "scorecardresearch", "noscript", "top-fwz1", "mc.yandex.ru"],
              strContains (t.src.getD "") site = true)
          ∨ iconsSearch (t.src.getD "").data = true))
    ∧ (∀ (l : List ImgChecker) (t : Tag) (flag : Nat) (st : DupState),
        l.Perm imgCheckersOrder →
          (runCheckers l t flag st).1 = (runCheckers imgCheckersOrder t flag st).1)
    ∧ (∀ (t : Tag) (flag : Nat) (st : DupState) (u : String),
        t.src = some u → strEndsWith u ".gif" = true → (htmlImageChecker t flag st).1 = false)
    ∧ (∀ (t : Tag) (flag : Nat) (st : DupState) (u : String),
        t.src = some u → strContains u "200x200" = true →
          (htmlImageChecker t flag st).1 = false) := by
  have hmain : ∀ (t : Tag) (flag : Nat) (st : DupState),
      (htmlImageChecker t flag st).1 = false ↔
        ((t.src = none ∨ t.src = some "")
          ∨ (strEndsWith (t.src.getD "") "gif" = true ∨ strEndsWith (t.src.getD "") "svg" = true)
          ∨ t.parentName = "a"
          ∨ (t.src.getD "") ∈
              (if st.inst = none ∨ st.inst ≠ some flag then ([] : List String) else st.duplicates)
          ∨ strContains (t.src.getD "") "::" = true
          ∨ (strContains (t.src.getD "") "bbc" = true ∧
              (t.srcset = none ∨ strContains (t.src.getD "") "line" = true))
          ∨ (∃ site ∈ ["stats", "scorecardresearch", "noscript", "top-fwz1", "mc.yandex.ru"],
              strContains (t.src.getD "") site = true)
          ∨ iconsSearch (t.src.getD "").data = true) := by
    intro t flag st
    rw [htmlImageChecker_bool]
    rw [← noImage_iff, ← dupBool_iff st flag t, ← bbc_iff, ← stats_iff]
    simp only [Bool.not_eq_false', Bool.or_eq_true, preReject, postReject,
      imageExtensionChecker, newsPageLogoChecker, imageDoubleColon, iconsChecker,
      decide_eq_true_eq]
    tauto
  refine ⟨hmain, fun l t flag st hp => runCheckers_perm l hp t flag st, ?_, ?_⟩
  · intro t flag st u hsrc hgif
    rw [hmain]
    right; left; left
    rw [hsrc]
    exact strEndsWith_trans_gif u hgif
  · intro t flag st u hsrc h200
    rw [hmain]
    right; right; right; right; right; right; right
    rw [hsrc]
    exact contains_200x200_icons u h200

/-- Witness for C7 at concrete inputs: a `.gif` URL and a `200x200` URL
are rejected, a clean URL is accepted, and a reordered rule list gives
the same verdict. -/
theorem C7_image_filter_rules_witness :
    (htmlImageChecker ⟨some "x.gif", none, none, "div"⟩ 0 ⟨none, []⟩).1 = false
    ∧ (htmlImageChecker ⟨some "http://e/200x200/i.jpg", none, none, "div"⟩ 0 ⟨none, []⟩).1 = false
    ∧ (htmlImageChecker ⟨some "http://e/i.jpg", none, none, "div"⟩ 0 ⟨none, []⟩).1 = true
    ∧ (runCheckers [ImgChecker.icons, ImgChecker.stats, ImgChecker.bbc, ImgChecker.doubleColon,
        ImgChecker.duplicate, ImgChecker.logo, ImgChecker.extension, ImgChecker.noImage]
        ⟨some "x.gif", none, none, "div"⟩ 0 ⟨none, []⟩).1 =
      (runCheckers imgCheckersOrder ⟨some "x.gif", none, none, "div"⟩ 0 ⟨none, []⟩).1 := by
  refine ⟨?_, ?_, ?_, ?_⟩
  · exact C7_image_filter_rules.2.2.1 _ 0 _ "x.gif" rfl (by decide)
  · exact C7_image_filter_rules.2.2.2 _ 0 _ "http://e/200x200/i.jpg" rfl (by decide)
  · have h := (C7_image_filter_rules.1 ⟨some "http://e/i.jpg", none, none, "div"⟩ 0 ⟨none, []⟩)
    have hno : ¬((htmlImageChecker ⟨some "http://e/i.jpg", none, none, "div"⟩ 0 ⟨none, []⟩).1
        = false) := by
      rw [h]
      decide
    cases hb : (htmlImageChecker ⟨some "http://e/i.jpg", none, none, "div"⟩ 0 ⟨none, []⟩).1
    · exact absurd hb hno
    · rfl
  · exact C7_image_filter_rules.2.1 _ _ 0 _ (by decide)

/-! ### Interleaved page scans against the shared duplicate state -/

/-- A sequence of `html_image_checker` calls (each tagged with the
`instance_flag` of the scan session issuing it) against the one shared
class-level `ImageDuplicateChecker` state: the operational model of
concurrent page scans interleaving their checks. -/
def runChecks : List (Nat × Tag) → DupState → List (Nat × Bool) × DupState
  | [], st => ([], st)
  | (f, t) :: rest, st =>
    match htmlImageChecker t f st with
    | (b, st') =>
      match runChecks rest st' with
      | (l, st'') => ((f, b) :: l, st'')

/-- The verdicts session `f` receives for its own checks, in order. -/
def sessionAccepts (f : Nat) (events : List (Nat × Tag)) (st : DupState) : List Bool :=
  ((runChecks events st).1.filter (fun p => p.1 = f)).map (fun p => p.2)

/-- C2: the duplicate-detector's seen-set is class-level shared state,
not session-scoped.  Scanning a page that shows the same image URL twice
as one isolated session rejects the repeat (`[true, false]`), but when
two sessions scanning that same page interleave their checks, the
flag-alternation resets the shared set and every check is accepted
(`[true, true]` for both sessions) — the accepted-image set of a session
depends on concurrent sessions, contradicting the claimed isolation. -/
theorem C2_duplicate_state_shared :
    (sessionAccepts 0 [(0, ⟨some "u.jpg", none, none, "div"⟩),
        (0, ⟨some "u.jpg", none, none, "div"⟩)] ⟨none, []⟩ = [true, false])
    ∧ (sessionAccepts 0 [(0, ⟨some "u.jpg", none, none, "div"⟩),
        (1, ⟨some "u.jpg", none, none, "div"⟩),
        (0, ⟨some "u.jpg", none, none, "div"⟩),
        (1, ⟨some "u.jpg", none, none, "div"⟩)] ⟨none, []⟩ = [true, true])
    ∧ (sessionAccepts 1 [(0, ⟨some "u.jpg", none, none, "div"⟩),
        (1, ⟨some "u.jpg", none, none, "div"⟩),
        (0, ⟨some "u.jpg", none, none, "div"⟩),
        (1, ⟨some "u.jpg", none, none, "div"⟩)] ⟨none, []⟩ = [true, true]) := by
  refine ⟨?_, ?_, ?_⟩ <;> decide

/-! ### C10: hyperlink-derived candidates -/

/-- A network where the (doubled) nested-URL probe 404s, so an absolute
image source keeps its own URL. -/
def c10Net : Net := fun u =>
  if u = "http://e/http://e/a.jpg" then NetResult.ok 404 else NetResult.ok 200

/-- A page showing one accepted `img` whose URL also occurs as a direct
`<a href>` download link. -/
def c10Page : Page :=
  ⟨[⟨some "http://e/a.jpg", some "cap", some "set", "div"⟩],
   [some "http://e/a.jpg"], none, none, none, none, none⟩

/-- C10: `form_img_data` appends the hyperlink-derived candidates (every
`a` whose href ends in `.jpg`/`.png`, empty caption, no acceptance
filter, no duplicate bookkeeping) after the image-tag-derived
candidates; on a page whose accepted `img` URL also occurs as such a
hyperlink target the final list holds that URL twice. -/
theorem C10_ahref_candidates_unfiltered :
    (∀ (net : Net) (pageUrl : String) (page : Page) (flag : Nat) (st : DupState)
        (imgs : List (String × Option String)) (st' : DupState),
      collectImgTagImages net pageUrl flag page.imgTags st = (Except.ok imgs, st') →
        formImgData net pageUrl page flag st =
          (Except.ok (imgs ++ collectAHrefTagImages page.aHrefs), st'))
    ∧ (formImgData c10Net "http://e/page" c10Page 0 ⟨none, []⟩).1 =
        Except.ok [("http://e/a.jpg", some "cap"), ("http://e/a.jpg", some "")]
    ∧ (((formImgData c10Net "http://e/page" c10Page 0 ⟨none, []⟩).1.toOption.getD []).map
        Prod.fst).count "http://e/a.jpg" = 2 := by
  refine ⟨?_, rfl, rfl⟩
  intro net pageUrl page flag st imgs st' h
  unfold formImgData
  rw [h]

/-- Witness for C10's universally quantified part at the concrete page. -/
theorem C10_ahref_candidates_unfiltered_witness :
    formImgData c10Net "http://e/page" c10Page 0 ⟨none, []⟩ =
      (Except.ok ([("http://e/a.jpg", some "cap")] ++ collectAHrefTagImages c10Page.aHrefs),
        ⟨some 0, ["http://e/a.jpg"]⟩) :=
  C10_ahref_candidates_unfiltered.1 c10Net "http://e/page" c10Page 0 ⟨none, []⟩
    [("http://e/a.jpg", some "cap")] ⟨some 0, ["http://e/a.jpg"]⟩ rfl

/-! ### C8: the date-filter hard failure -/

/-- C8: when no item's date-only publication date equals the target
date, the batch former raises `ValueError("error: no news for the
specified date")` before any enrichment and produces no output records,
whatever the limit, network, schedule or shared state. -/
theorem C8_date_filter_hard_failure (parseDateOnly : String → String) (items : List RssItem)
    (d : String) (h : ∀ it ∈ items, parseDateOnly it.pubDate ≠ parseDateOnly d) :
    ∀ (net : Net) (web : Web) (parseDate : String → String) (feedTitle : String)
      (newsLimit : Option Nat) (schedule : List Nat) (st₀ : DupState),
      formBatch net web parseDate parseDateOnly feedTitle items newsLimit (some d) schedule st₀ =
        Except.error "error: no news for the specified date" := by
  intro net web parseDate feedTitle newsLimit schedule st₀
  unfold formBatch
  simp only [formNewsList, formNewsListByDate]
  have hnot : parseDateOnly d ∉ items.map (fun n => parseDateOnly n.pubDate) := by
    intro hmem
    rcases List.mem_map.mp hmem with ⟨it, hit, heq⟩
    exact h it hit heq
  rw [if_neg hnot]

/-- Witness for C8: a five-item feed, a target date matching none. -/
theorem C8_date_filter_hard_failure_witness :
    formBatch (fun _ => NetResult.ok 200) (fun _ => ⟨[], [], none, none, none, none, none⟩)
      (fun s => s) (fun s => s) "F"
      [⟨"t1", "d1", none, none⟩, ⟨"t2", "d2", none, none⟩, ⟨"t3", "d3", none, none⟩,
       ⟨"t4", "d4", none, none⟩, ⟨"t5", "d5", none, none⟩]
      none (some "d9") [] ⟨none, []⟩ =
      Except.error "error: no news for the specified date" :=
  C8_date_filter_hard_failure (fun s => s)
    [⟨"t1", "d1", none, none⟩, ⟨"t2", "d2", none, none⟩, ⟨"t3", "d3", none, none⟩,
     ⟨"t4", "d4", none, none⟩, ⟨"t5", "d5", none, none⟩] "d9" (by decide)
    (fun _ => NetResult.ok 200) (fun _ => ⟨[], [], none, none, none, none, none⟩)
    (fun s => s) "F" none [] ⟨none, []⟩

/-! ### C3: the count invariant -/

/-- The spec's selection-size formula (§8 count invariant): the date
filter first, then the limit, `min(limit, count_after_date_filter)` when
a limit is given. -/
def specSelectionSize (parseDateOnly : String → String) (newsLimit : Option Nat)
    (newsDate : Option String) (items : List RssItem) : Nat :=
  let filtered := match newsDate with
    | none => items
    | some dd => items.filter (fun it => parseDateOnly it.pubDate = parseDateOnly dd)
  match newsLimit with
  | none => filtered.length
  | some l => min l filtered.length

theorem formNewsLimit_eq_min {α : Type} (l : Nat) (xs : List α) :
    formNewsLimit (some l) xs = min l xs.length := by
  unfold formNewsLimit
  simp only
  by_cases h : l > xs.length
  · rw [if_pos h]
    omega
  · rw [if_neg h]
    omega

theorem zip_dates_filter (f : RssItem → String) (r : String) :
    ∀ l : List RssItem,
      ((l.zip (l.map f)).filterMap (fun p => if p.2 = r then some p.1 else none)) =
        l.filter (fun it => f it = r) := by
  intro l
  induction l with
  | nil => rfl
  | cons i tl ih =>
    simp only [List.map_cons, List.zip_cons_cons, List.filterMap_cons, List.filter_cons]
    by_cases hc : f i = r
    · simp [hc, ih]
    · simp [hc, ih]

theorem collectNews_ok_length (parseDate : String → String) (feedTitle : String) :
    ∀ (l : List (Nat × RssItem)) (results : List (Nat × Except String TaskResult))
      (out : List NewsContainer),
      collectNews parseDate feedTitle l results = Except.ok out → out.length = l.length := by
  intro l
  induction l with
  | nil =>
    intro results out h
    simp only [collectNews, Except.ok.injEq] at h
    rw [← h]
    rfl
  | cons p rest ih =>
    intro results out h
    obtain ⟨i, item⟩ := p
    unfold collectNews at h
    split at h
    · exact Except.noConfusion h
    · exact Except.noConfusion h
    · split at h
      · exact Except.noConfusion h
      · split at h
        · exact Except.noConfusion h
        · injection h with h2
          rw [← h2, List.length_cons, ih results _ (by assumption)]
          rfl

/-- C3: for every non-error run, the selection's size is the spec
formula (date filter first, then a silently clamped limit), and the
number of produced article records equals the selection size. -/
theorem C3_count_invariant (parseDateOnly : String → String) (newsLimit : Option Nat)
    (newsDate : Option String) (items sel : List RssItem)
    (hsel : formNewsList parseDateOnly newsLimit newsDate items = Except.ok sel) :
    sel.length = specSelectionSize parseDateOnly newsLimit newsDate items
    ∧ ∀ (net : Net) (web : Web) (parseDate : String → String) (feedTitle : String)
        (schedule : List Nat) (st₀ : DupState) (out : List NewsContainer),
        formNews net web parseDate feedTitle sel schedule st₀ = Except.ok out →
        out.length = sel.length := by
  constructor
  · cases newsDate with
    | none =>
      simp only [formNewsList, Except.ok.injEq] at hsel
      rw [← hsel]
      unfold specSelectionSize
      cases newsLimit with
      | none => simp [formNewsLimit, List.length_take]
      | some l =>
        rw [List.length_take, formNewsLimit_eq_min]
        simp only
        omega
    | some dd =>
      simp only [formNewsList, formNewsListByDate] at hsel
      by_cases hm : parseDateOnly dd ∈ items.map (fun n => parseDateOnly n.pubDate)
      · rw [if_pos hm] at hsel
        simp only [Except.ok.injEq] at hsel
        rw [← hsel]
        rw [zip_dates_filter (fun n => parseDateOnly n.pubDate) (parseDateOnly dd) items]
        unfold specSelectionSize
        cases newsLimit with
        | none =>
          simp only [formNewsLimit, List.length_take]
          omega
        | some l =>
          rw [List.length_take, formNewsLimit_eq_min]
          simp only
          omega
      · rw [if_neg hm] at hsel
        exact Except.noConfusion hsel
  · intro net web parseDate feedTitle schedule st₀ out hout
    unfold formNews at hout
    have := collectNews_ok_length parseDate feedTitle sel.enum
      (runSchedule net web sel schedule st₀).1 out hout
    rw [this, List.enum_length]

def c3items : List RssItem :=
  [⟨"t1", "d1", none, some "x"⟩, ⟨"t2", "d2", none, some "y"⟩, ⟨"t3", "d3", none, some "z"⟩]

def c3sel : List RssItem := [⟨"t1", "d1", none, some "x"⟩, ⟨"t2", "d2", none, some "y"⟩]

def c3out : List NewsContainer :=
  (formNews (fun _ => NetResult.ok 200) (fun _ => ⟨[], [], none, none, none, none, none⟩)
    (fun s => s) "F" c3sel [1, 0] ⟨none, []⟩).toOption.getD []

/-- Witness for C3: three items, limit 2, no target date; the pool
completes the second task first. -/
theorem C3_count_invariant_witness :
    c3sel.length = specSelectionSize (fun s => s) (some 2) none c3items
    ∧ c3out.length = c3sel.length := by
  have h := C3_count_invariant (fun s => s) (some 2) none c3items c3sel rfl
  exact ⟨h.1, h.2 (fun _ => NetResult.ok 200) (fun _ => ⟨[], [], none, none, none, none, none⟩)
    (fun s => s) "F" [1, 0] ⟨none, []⟩ c3out rfl⟩

/-! ### Scan results do not depend on a shared state the scan has not
touched

Each `WebParser` instance carries a fresh `instance_flag`, and the
duplicate rule resets the shared set the first time a new flag reaches
it, so a whole page scan started from any state whose stored flag
differs from its own behaves exactly as from the pristine class state.
This is what makes the positional reassembly of `form_news`
schedule-independent. -/

theorem getImgData_inst (net : Net) (pageUrl : String) (flag : Nat) (st : DupState) (t : Tag) :
    ((getImgData net pageUrl flag st t).2).inst = st.inst ∨
      ((getImgData net pageUrl flag st t).2).inst = some flag := by
  unfold getImgData
  have h := htmlDataChecker_inst t flag st
  cases hd : htmlDataChecker t flag st with
  | mk b st' =>
    rw [hd] at h
    cases b
    · exact h
    · simp only
      cases getNestedUrl net pageUrl t with
      | error e => exact h
      | ok nu =>
        simp only
        cases net (match nu with
          | some n => if strEndsWith n "jpg" || strEndsWith n "png" then n else t.src.getD ""
          | none => t.src.getD "") with
        | connErr => exact h
        | ok _ => exact h

theorem getImgData_reset (net : Net) (pageUrl : String) (flag : Nat) (st : DupState) (t : Tag)
    (h : st.inst ≠ some flag) :
    getImgData net pageUrl flag st t =
      if preReject t then (Except.ok none, st)
      else ((getImgData net pageUrl flag ⟨none, []⟩ t).1, ⟨some flag, [t.src.getD ""]⟩) := by
  unfold getImgData
  rw [htmlDataChecker_reset t flag st h,
      htmlDataChecker_reset t flag ⟨none, []⟩ (by simp)]
  by_cases hp : preReject t
  · simp [hp]
  · simp only [hp, if_false, Bool.false_eq_true]
    cases hb : (!postReject t) && htmlCaptionChecker t
    · simp
    · simp only
      cases getNestedUrl net pageUrl t with
      | error e => simp
      | ok nu =>
        simp only
        cases net (match nu with
          | some n => if strEndsWith n "jpg" || strEndsWith n "png" then n else t.src.getD ""
          | none => t.src.getD "") with
        | connErr => simp
        | ok _ => simp

theorem collectImgTagImages_inst (net : Net) (pageUrl : String) (flag : Nat) :
    ∀ (tags : List Tag) (st : DupState),
      ((collectImgTagImages net pageUrl flag tags st).2).inst = st.inst ∨
        ((collectImgTagImages net pageUrl flag tags st).2).inst = some flag := by
  intro tags
  induction tags with
  | nil => intro st; exact Or.inl rfl
  | cons t rest ih =>
    intro st
    unfold collectImgTagImages
    have h1 := getImgData_inst net pageUrl flag st t
    cases hg : getImgData net pageUrl flag st t with
    | mk r st' =>
      rw [hg] at h1
      cases r with
      | error e => exact h1
      | ok res =>
        simp only
        have h2 := ih st'
        cases hc : collectImgTagImages net pageUrl flag rest st' with
        | mk r2 st'' =>
          rw [hc] at h2
          have hcomb : st''.inst = st.inst ∨ st''.inst = some flag := by
            rcases h2 with h2 | h2
            · rcases h1 with h1 | h1
              · exact Or.inl (h2.trans h1)
              · exact Or.inr (h2.trans h1)
            · exact Or.inr h2
          cases r2 with
          | error e => exact hcomb
          | ok acc =>
            cases res with
            | none => exact hcomb
            | some p =>
              obtain ⟨u, cap⟩ := p
              simp only
              by_cases hu : u ≠ "" <;> simp [hu, hcomb]

theorem collectImgTagImages_indep (net : Net) (pageUrl : String) (flag : Nat) :
    ∀ (tags : List Tag) (st₁ st₂ : DupState),
      st₁.inst ≠ some flag → st₂.inst ≠ some flag →
      (collectImgTagImages net pageUrl flag tags st₁).1 =
        (collectImgTagImages net pageUrl flag tags st₂).1 := by
  intro tags
  induction tags with
  | nil => intro st₁ st₂ _ _; rfl
  | cons t rest ih =>
    intro st₁ st₂ h₁ h₂
    unfold collectImgTagImages
    rw [getImgData_reset net pageUrl flag st₁ t h₁, getImgData_reset net pageUrl flag st₂ t h₂]
    by_cases hp : preReject t
    · rw [if_pos hp, if_pos hp]
      simp only
      have hrec := ih st₁ st₂ h₁ h₂
      cases hc1 : collectImgTagImages net pageUrl flag rest st₁ with
      | mk r1 s1 =>
        cases hc2 : collectImgTagImages net pageUrl flag rest st₂ with
        | mk r2 s2 =>
          rw [hc1, hc2] at hrec
          simp only at hrec
          rw [hrec]
          cases r2 <;> simp
    · rw [if_neg hp, if_neg hp]

theorem collectImgData_inst (net : Net) (web : Web) (flag : Nat) (st : DupState)
    (item : RssItem) :
    ((collectImgData net web flag st item).2).inst = st.inst ∨
      ((collectImgData net web flag st item).2).inst = some flag := by
  unfold collectImgData
  cases item.link with
  | none => exact Or.inl rfl
  | some url =>
    simp only
    cases net url with
    | connErr => exact Or.inl rfl
    | ok status =>
      simp only
      unfold formImgData
      have h := collectImgTagImages_inst net url flag (web url).imgTags st
      cases hc : collectImgTagImages net url flag (web url).imgTags st with
      | mk r st' =>
        rw [hc] at h
        cases r <;> exact h

theorem collectImgData_indep (net : Net) (web : Web) (flag : Nat) (st₁ st₂ : DupState)
    (item : RssItem) (h₁ : st₁.inst ≠ some flag) (h₂ : st₂.inst ≠ some flag) :
    (collectImgData net web flag st₁ item).1 = (collectImgData net web flag st₂ item).1 := by
  unfold collectImgData
  cases item.link with
  | none => rfl
  | some url =>
    simp only
    cases net url with
    | connErr => rfl
    | ok status =>
      simp only
      unfold formImgData
      have hrec := collectImgTagImages_indep net url flag (web url).imgTags st₁ st₂ h₁ h₂
      cases hc1 : collectImgTagImages net url flag (web url).imgTags st₁ with
      | mk r1 s1 =>
        cases hc2 : collectImgTagImages net url flag (web url).imgTags st₂ with
        | mk r2 s2 =>
          rw [hc1, hc2] at hrec
          simp only at hrec
          rw [hrec]
          cases r2 <;> rfl

/-- Every recorded future's index comes from the schedule. -/
theorem runSchedule_keys (net : Net) (web : Web) (items : List RssItem) :
    ∀ (sched : List Nat) (st : DupState) (p : Nat × Except String TaskResult),
      p ∈ (runSchedule net web items sched st).1 → p.1 ∈ sched := by
  intro sched
  induction sched with
  | nil => intro st p hp; exact absurd hp (List.not_mem_nil p)
  | cons j rest ih =>
    intro st p hp
    unfold runSchedule at hp
    cases hj : items.get? j with
    | none =>
      rw [hj] at hp
      exact List.mem_cons_of_mem j (ih st p hp)
    | some itemJ =>
      rw [hj] at hp
      simp only at hp
      cases hcj : collectImgData net web j st itemJ with
      | mk rj stj =>
        rw [hcj] at hp
        simp only at hp
        cases hrs : runSchedule net web items rest stj with
        | mk results stFin =>
          rw [hrs] at hp
          simp only [List.mem_cons] at hp
          rcases hp with hp | hp
          · rw [hp]
            exact List.mem_cons_self j rest
          · exact List.mem_cons_of_mem j (ih stj p (by rw [hrs]; exact hp))

/-- While a valid schedule runs, the shared state's stored flag is
always `none` or the flag of an already-finished task, so each pending
task starts from a state it has not touched and records the result it
would compute from the pristine class state. -/
theorem runSchedule_lookup (net : Net) (web : Web) (items : List RssItem) :
    ∀ (sched : List Nat) (st : DupState), sched.Nodup →
      (∀ i ∈ sched, st.inst ≠ some i) →
      ∀ i ∈ sched,
        lookupResult i (runSchedule net web items sched st).1 =
          (items.get? i).map (fun it => (collectImgData net web i ⟨none, []⟩ it).1) := by
  intro sched
  induction sched with
  | nil => intro st _ _ i hi; exact absurd hi (List.not_mem_nil i)
  | cons j rest ih =>
    intro st hnd hst i hi
    have hnd' := List.nodup_cons.mp hnd
    unfold runSchedule
    cases hj : items.get? j with
    | none =>
      rcases List.mem_cons.mp hi with hij | hir
      · subst hij
        rw [hj, Option.map_none']
        unfold lookupResult
        rw [List.find?_eq_none.mpr, Option.map_none']
        intro p hp
        simp only [decide_eq_true_eq]
        intro hpi
        exact hnd'.1 (hpi ▸ runSchedule_keys net web items rest st p hp)
      · exact ih st hnd'.2 (fun i' hi' => hst i' (List.mem_cons_of_mem j hi')) i hir
    | some itemJ =>
      simp only
      cases hcj : collectImgData net web j st itemJ with
      | mk rj stj =>
        simp only
        cases hrs : runSchedule net web items rest stj with
        | mk results stFin =>
          simp only
          rcases List.mem_cons.mp hi with hij | hir
          · subst hij
            unfold lookupResult
            rw [List.find?_cons_of_pos _ (by simp), Option.map_some', hj, Option.map_some']
            have hrj : rj = (collectImgData net web i st itemJ).1 := by rw [hcj]
            rw [hrj, collectImgData_indep net web i st ⟨none, []⟩ itemJ
              (hst i (List.mem_cons_self i rest)) (by simp)]
          · have hijne : j ≠ i := fun he => hnd'.1 (he ▸ hir)
            unfold lookupResult
            rw [List.find?_cons_of_neg _ (by simp [hijne])]
            have hstj : ∀ i' ∈ rest, stj.inst ≠ some i' := by
              intro i' hi'
              have hinst := collectImgData_inst net web j st itemJ
              rw [hcj] at hinst
              simp only at hinst
              rcases hinst with hinst | hinst
              · rw [hinst]
                exact hst i' (List.mem_cons_of_mem j hi')
              · rw [hinst]
                intro he
                have : j = i' := by injection he
                exact hnd'.1 (this ▸ hi')
            have := ih stj hnd'.2 hstj i hir
            rw [hrs] at this
            exact this

theorem enumFrom_get_aux {α : Type} :
    ∀ (l : List α) (n i : Nat),
      (List.enumFrom n l).get? i = (l.get? i).map (fun a => (n + i, a)) := by
  intro l
  induction l with
  | nil => intro n i; cases i <;> rfl
  | cons a tl ih =>
    intro n i
    cases i with
    | zero => rfl
    | succ i =>
      simp only [List.enumFrom, List.get?]
      rw [ih (n + 1) i]
      cases tl.get? i <;> simp [Nat.add_assoc, Nat.add_comm 1 i]

theorem mem_enum_get {α : Type} (l : List α) (p : Nat × α) (hp : p ∈ l.enum) :
    l.get? p.1 = some p.2 := by
  rcases List.mem_iff_get?.mp hp with ⟨k, hk⟩
  have := enumFrom_get_aux l 0 k
  rw [List.enum] at hk
  rw [hk] at this
  cases hl : l.get? k with
  | none => rw [hl] at this; exact Option.noConfusion this
  | some a =>
    rw [hl] at this
    simp only [Option.map_some', Option.some.injEq] at this
    rw [this]
    simpa using hl

/-- Retrieving the futures positionally and running `form_news` on each
equals enriching each item independently, whenever every future holds
its item's pristine-state result. -/
theorem collectNews_eq_enrichAll (net : Net) (web : Web) (parseDate : String → String)
    (feedTitle : String) :
    ∀ (l : List (Nat × RssItem)) (results : List (Nat × Except String TaskResult)),
      (∀ p ∈ l, lookupResult p.1 results =
        some ((collectImgData net web p.1 ⟨none, []⟩ p.2).1)) →
      collectNews parseDate feedTitle l results = enrichAll net web parseDate feedTitle l := by
  intro l
  induction l with
  | nil => intro results _; rfl
  | cons p rest ih =>
    intro results hmem
    obtain ⟨i, item⟩ := p
    have hp := hmem (i, item) (List.mem_cons_self _ _)
    simp only at hp
    cases hcf : (collectImgData net web i ⟨none, []⟩ item).1 with
    | error e =>
      rw [hcf] at hp
      unfold collectNews enrichAll enrichOne
      rw [hp, hcf]
    | ok tr =>
      rw [hcf] at hp
      unfold collectNews enrichAll enrichOne
      rw [hp, hcf]
      simp only
      cases hn : newsObjectForm parseDate feedTitle item tr with
      | error e => rfl
      | ok c =>
        simp only
        rw [ih results (fun q hq => hmem q (List.mem_cons_of_mem _ hq))]

theorem enrichAll_ok (net : Net) (web : Web) (parseDate : String → String)
    (feedTitle : String) :
    ∀ (l : List (Nat × RssItem)) (out : List NewsContainer),
      enrichAll net web parseDate feedTitle l = Except.ok out →
      out.length = l.length ∧
        ∀ (k : Nat) (p : Nat × RssItem), l.get? k = some p →
          ∃ c, out.get? k = some c ∧
            enrichOne net web parseDate feedTitle p.1 p.2 = Except.ok c := by
  intro l
  induction l with
  | nil =>
    intro out h
    simp only [enrichAll, Except.ok.injEq] at h
    constructor
    · rw [← h]; rfl
    · intro k p hk
      cases k <;> exact Option.noConfusion hk
  | cons q rest ih =>
    intro out h
    obtain ⟨i, item⟩ := q
    unfold enrichAll at h
    cases he : enrichOne net web parseDate feedTitle i item with
    | error e => rw [he] at h; exact Except.noConfusion h
    | ok c =>
      rw [he] at h
      simp only at h
      cases hr : enrichAll net web parseDate feedTitle rest with
      | error e => rw [hr] at h; exact Except.noConfusion h
      | ok cs =>
        rw [hr] at h
        simp only at h
        injection h with h2
        have hrec := ih cs hr
        constructor
        · rw [← h2, List.length_cons, hrec.1]
          rfl
        · intro k p hk
          cases k with
          | zero =>
            simp only [List.get?] at hk
            injection hk with hk2
            refine ⟨c, ?_, ?_⟩
            · rw [← h2]; rfl
            · rw [← hk2]; exact he
          | succ k =>
            simp only [List.get?] at hk
            rcases hrec.2 k p hk with ⟨c', hc1, hc2⟩
            refine ⟨c', ?_, hc2⟩
            rw [← h2]
            simpa using hc1

/-- A valid schedule's `form_news` equals the positional independent
enrichment of the selected items, whatever the completion order. -/
theorem formNews_eq_enrichAll (net : Net) (web : Web) (parseDate : String → String)
    (feedTitle : String) (items : List RssItem) (schedule : List Nat) (st₀ : DupState)
    (hperm : schedule.Perm (List.range items.length))
    (hst : ∀ i < items.length, st₀.inst ≠ some i) :
    formNews net web parseDate feedTitle items schedule st₀ =
      enrichAll net web parseDate feedTitle items.enum := by
  have hnd : schedule.Nodup := hperm.nodup_iff.mpr (List.nodup_range _)
  have hst' : ∀ i ∈ schedule, st₀.inst ≠ some i := by
    intro i hi
    exact hst i (List.mem_range.mp (hperm.mem_iff.mp hi))
  unfold formNews
  apply collectNews_eq_enrichAll
  intro p hp
  have hget := mem_enum_get items p hp
  have hlt : p.1 < items.length := by
    rcases List.get?_eq_some.mp hget with ⟨hbound, _⟩
    exact hbound
  have hmem : p.1 ∈ schedule := hperm.mem_iff.mpr (List.mem_range.mpr hlt)
  have := runSchedule_lookup net web items schedule st₀ hnd hst' p.1 hmem
  rw [this, hget, Option.map_some']

/-- C1: the batch former's output is in selection order, independent of
the completion order of the concurrent tasks — the futures are read back
positionally, and each records its item's own enrichment.  The record at
output position `i` is the enrichment of the item at selection position
`i`. -/
theorem C1_order_preservation (net : Net) (web : Web) (parseDate : String → String)
    (feedTitle : String) (items : List RssItem) (schedule : List Nat) (st₀ : DupState)
    (hperm : schedule.Perm (List.range items.length))
    (hst : ∀ i < items.length, st₀.inst ≠ some i) :
    formNews net web parseDate feedTitle items schedule st₀ =
      enrichAll net web parseDate feedTitle items.enum
    ∧ ∀ (out : List NewsContainer),
        formNews net web parseDate feedTitle items schedule st₀ = Except.ok out →
        out.length = items.length
        ∧ ∀ (i : Nat) (item : RssItem), items.get? i = some item →
            ∃ c, out.get? i = some c ∧
              enrichOne net web parseDate feedTitle i item = Except.ok c := by
  have hmain := formNews_eq_enrichAll net web parseDate feedTitle items schedule st₀ hperm hst
  refine ⟨hmain, ?_⟩
  intro out hout
  rw [hmain] at hout
  have h := enrichAll_ok net web parseDate feedTitle items.enum out hout
  constructor
  · rw [h.1, List.enum_length]
  · intro i item hget
    have henum : items.enum.get? i = some (i, item) := by
      rw [List.enum, enumFrom_get_aux items 0 i, hget, Option.map_some']
      simp
    exact h.2 i (i, item) henum

def c1items : List RssItem :=
  [⟨"t1", "d1", none, some "x"⟩, ⟨"t2", "d2", none, some "y"⟩]

/-- Witness for C1: two items, the pool finishing task 1 before task 0;
the output still equals the positional independent enrichment. -/
theorem C1_order_preservation_witness :
    formNews (fun _ => NetResult.ok 200) (fun _ => ⟨[], [], none, none, none, none, none⟩)
      (fun s => s) "F" c1items [1, 0] ⟨none, []⟩ =
      enrichAll (fun _ => NetResult.ok 200) (fun _ => ⟨[], [], none, none, none, none, none⟩)
        (fun s => s) "F" c1items.enum :=
  (C1_order_preservation (fun _ => NetResult.ok 200)
    (fun _ => ⟨[], [], none, none, none, none, none⟩) (fun s => s) "F" c1items [1, 0]
    ⟨none, []⟩ (by decide) (by decide)).1

/-! ### C4: a page-fetch network failure -/

/-- C4 counterexample: one item with a link whose page fetch raises a
connection error — `WebParser.__init__` does not guard `requests.get`,
so the batch run aborts with the exception and produces no output; the
article does not appear degraded in any output. -/
theorem C4_page_fetch_failure_counterexample :
    formNews (fun _ => NetResult.connErr) (fun _ => ⟨[], [], none, none, none, none, none⟩)
      (fun s => s) "F" [⟨"t", "d", some "http://e/p", some "x"⟩] [0] ⟨none, []⟩ =
      Except.error "ConnectionError" := rfl

/-- C4 (amended): a network failure while fetching an item's own HTML
page raises out of the enricher (the `AttributeError` handler of
`_collect_img_data` does not catch it) and the whole batch run fails
with no output; graceful degradation happens only for items without a
link. -/
theorem C4_page_fetch_failure_aborts (net : Net) (web : Web) (parseDate : String → String)
    (feedTitle : String) (items : List RssItem) (schedule : List Nat) (st₀ : DupState)
    (k : Nat) (item : RssItem) (url : String)
    (hperm : schedule.Perm (List.range items.length))
    (hst : ∀ i < items.length, st₀.inst ≠ some i)
    (hk : items.get? k = some item) (hlink : item.link = some url)
    (hnet : net url = NetResult.connErr) :
    (∀ (flag : Nat) (st : DupState),
      (collectImgData net web flag st item).1 = Except.error "ConnectionError")
    ∧ ∀ (out : List NewsContainer),
        formNews net web parseDate feedTitle items schedule st₀ ≠ Except.ok out := by
  have hcol : ∀ (flag : Nat) (st : DupState),
      (collectImgData net web flag st item).1 = Except.error "ConnectionError" := by
    intro flag st
    unfold collectImgData
    rw [hlink]
    simp only
    rw [hnet]
  refine ⟨hcol, ?_⟩
  intro out hout
  rw [formNews_eq_enrichAll net web parseDate feedTitle items schedule st₀ hperm hst] at hout
  have h := enrichAll_ok net web parseDate feedTitle items.enum out hout
  have henum : items.enum.get? k = some (k, item) := by
    rw [List.enum, enumFrom_get_aux items 0 k, hk, Option.map_some']
    simp
  rcases h.2 k (k, item) henum with ⟨c, _, hc2⟩
  unfold enrichOne at hc2
  rw [hcol k ⟨none, []⟩] at hc2
  exact Except.noConfusion hc2

/-- Witness for C4's amended statement at a concrete failing network. -/
theorem C4_page_fetch_failure_aborts_witness :
    ((collectImgData (fun _ => NetResult.connErr)
        (fun _ => ⟨[], [], none, none, none, none, none⟩) 0 ⟨none, []⟩
        ⟨"t", "d", some "http://e/p", some "x"⟩).1 = Except.error "ConnectionError")
    ∧ formNews (fun _ => NetResult.connErr) (fun _ => ⟨[], [], none, none, none, none, none⟩)
        (fun s => s) "F" [⟨"t", "d", some "http://e/p", some "x"⟩] [0] ⟨none, []⟩ ≠
        Except.ok [] := by
  have h := C4_page_fetch_failure_aborts (fun _ => NetResult.connErr)
    (fun _ => ⟨[], [], none, none, none, none, none⟩) (fun s => s) "F"
    [⟨"t", "d", some "http://e/p", some "x"⟩] [0] ⟨none, []⟩ 0
    ⟨"t", "d", some "http://e/p", some "x"⟩ "http://e/p"
    (by decide) (by decide) rfl rfl rfl
  exact ⟨h.1 0 ⟨none, []⟩, h.2 []⟩

/-! ### C5: items without a link -/

/-- C5 counterexample: an item with no link **and** no inline
description.  `_form_description` falls into the rss-description-missing
branch and calls `self._parser.form_description()`, but `_collect_img_data`
returned before ever assigning `self._parser`, so the enricher raises
`AttributeError` — no record with a "no description" sentinel exists. -/
theorem C5_no_link_counterexample :
    enrichOne (fun _ => NetResult.ok 200) (fun _ => ⟨[], [], none, none, none, none, none⟩)
      (fun s => s) "F" 0 ⟨"t", "d", none, none⟩ = Except.error "AttributeError" := rfl

/-- C5 (amended): for an item without a link the enricher skips page
resolution entirely (no network access, state untouched) and, when an
inline description is present, produces the record with the fixed
no-link sentinel (plus the trailing newline the code appends), exactly
one placeholder links entry, and the markup-stripped inline description;
when the inline description is absent it raises `AttributeError` instead
of using a sentinel. -/
theorem C5_no_link_placeholders (net : Net) (web : Web) (parseDate : String → String)
    (feedTitle : String) (flag : Nat) (item : RssItem) (h : item.link = none) :
    (∀ st : DupState,
      collectImgData net web flag st item = (Except.ok ⟨none, none, none⟩, st))
    ∧ (∀ s, item.description = some s →
        enrichOne net web parseDate feedTitle flag item =
          Except.ok ⟨feedTitle ++ "\n", item.title, parseDate item.pubDate,
            "Rss news doesn't provide link" ++ "\n",
            soupGetText (stripTagsStr s ++ "\n"),
            [("[1]", "Rss news doesn't provide link")]⟩)
    ∧ (item.description = none →
        enrichOne net web parseDate feedTitle flag item = Except.error "AttributeError") := by
  have hcol : ∀ st : DupState,
      collectImgData net web flag st item = (Except.ok ⟨none, none, none⟩, st) := by
    intro st
    unfold collectImgData
    rw [h]
  refine ⟨hcol, ?_, ?_⟩
  · intro s hs
    unfold enrichOne
    rw [hcol ⟨none, []⟩]
    simp only [newsObjectForm, formDescriptionField, formLinks, hs]
    rfl
  · intro hs
    unfold enrichOne
    rw [hcol ⟨none, []⟩]
    simp only [newsObjectForm, formDescriptionField, formLinks, hs]

/-- Witness for C5 at concrete items (one with markup in its inline
description, one with none), against a network that would fail if it
were ever consulted. -/
theorem C5_no_link_placeholders_witness :
    (collectImgData (fun _ => NetResult.connErr) (fun _ => ⟨[], [], none, none, none, none, none⟩)
      0 ⟨none, []⟩ ⟨"t", "d", none, some "de<b>sc</b>"⟩ = (Except.ok ⟨none, none, none⟩, ⟨none, []⟩))
    ∧ (enrichOne (fun _ => NetResult.connErr) (fun _ => ⟨[], [], none, none, none, none, none⟩)
        (fun s => s) "F" 0 ⟨"t", "d", none, some "de<b>sc</b>"⟩ =
        Except.ok ⟨"F" ++ "\n", "t", "d", "Rss news doesn't provide link" ++ "\n",
          soupGetText (stripTagsStr "de<b>sc</b>" ++ "\n"),
          [("[1]", "Rss news doesn't provide link")]⟩)
    ∧ (enrichOne (fun _ => NetResult.connErr) (fun _ => ⟨[], [], none, none, none, none, none⟩)
        (fun s => s) "F" 0 ⟨"t2", "d2", none, none⟩ = Except.error "AttributeError") := by
  have h1 := C5_no_link_placeholders (fun _ => NetResult.connErr)
    (fun _ => ⟨[], [], none, none, none, none, none⟩) (fun s => s) "F" 0
    ⟨"t", "d", none, some "de<b>sc</b>"⟩ rfl
  have h2 := C5_no_link_placeholders (fun _ => NetResult.connErr)
    (fun _ => ⟨[], [], none, none, none, none, none⟩) (fun s => s) "F" 0
    ⟨"t2", "d2", none, none⟩ rfl
  exact ⟨h1.1 ⟨none, []⟩, h1.2.1 "de<b>sc</b>" rfl, h2.2.2 rfl⟩

/-! ### C9: trailing newlines on the record's fields -/

def c9rec : NewsContainer :=
  (enrichOne (fun _ => NetResult.ok 200) (fun _ => ⟨[], [], none, none, none, none, none⟩)
    (fun s => s) "F" 0 ⟨"t", "d", none, some "x"⟩).toOption.getD ⟨"", "", "", "", "", []⟩

/-- C9 counterexample: in a produced record the `link` and `description`
fields also end with a newline character, not only `feed` — `_form_header`
appends `"\n"` to the link and `_form_description` appends `"\n"` to the
description. -/
theorem C9_trailing_newline_counterexample :
    c9rec.link = "Rss news doesn't provide link\n"
    ∧ strEndsWith c9rec.link "\n" = true
    ∧ strEndsWith c9rec.description "\n" = true
    ∧ c9rec.feed = "F\n" := by
  refine ⟨rfl, ?_, ?_, rfl⟩ <;> decide

theorem formDescriptionField_ok_nl (tr : TaskResult) (item : RssItem) (d : String)
    (h : formDescriptionField tr item = Except.ok d) : ∃ b, d = b ++ "\n" := by
  unfold formDescriptionField at h
  cases hdesc : item.description with
  | some rss =>
    rw [hdesc] at h
    simp only [Except.ok.injEq] at h
    exact ⟨_ ++ stripTagsStr rss, by rw [← h, String.append_assoc]⟩
  | none =>
    rw [hdesc] at h
    cases hpg : tr.parserPage with
    | none => rw [hpg] at h; exact Except.noConfusion h
    | some page =>
      rw [hpg] at h
      simp only at h
      cases hpd : formPageDescription page with
      | error e => rw [hpd] at h; exact Except.noConfusion h
      | ok pd =>
        rw [hpd] at h
        simp only [Except.ok.injEq] at h
        exact ⟨_ ++ pd, by rw [← h, String.append_assoc]⟩

/-- C9 (amended): the `feed` field is the feed title with exactly one
trailing newline appended, and the `link` and `description` fields also
carry a trailing newline; `title` and `date` are passed through verbatim
from the item's title and the reformatted date. -/
theorem C9_newline_fields (net : Net) (web : Web) (parseDate : String → String)
    (feedTitle : String) (flag : Nat) (item : RssItem) (c : NewsContainer)
    (h : enrichOne net web parseDate feedTitle flag item = Except.ok c) :
    c.feed = feedTitle ++ "\n"
    ∧ (∃ s, c.link = s ++ "\n")
    ∧ (∃ s, c.description = s ++ "\n")
    ∧ c.title = item.title
    ∧ c.date = parseDate item.pubDate := by
  unfold enrichOne at h
  cases hcf : (collectImgData net web flag ⟨none, []⟩ item).1 with
  | error e => rw [hcf] at h; exact Except.noConfusion h
  | ok tr =>
    rw [hcf] at h
    simp only at h
    unfold newsObjectForm at h
    cases hd : formDescriptionField tr item with
    | error e => rw [hd] at h; exact Except.noConfusion h
    | ok d =>
      rw [hd] at h
      simp only at h
      injection h with h2
      rcases formDescriptionField_ok_nl tr item d hd with ⟨b, hb⟩
      rw [← h2]
      refine ⟨rfl, ⟨_, rfl⟩, ⟨soupGetText b, ?_⟩, rfl, rfl⟩
      simp only
      rw [hb, soupGetText_append_nl]

/-- Witness for C9's amended statement on a concrete record. -/
theorem C9_newline_fields_witness :
    c9rec.feed = "F" ++ "\n" ∧ c9rec.title = "t" ∧ c9rec.date = "d" := by
  have h := C9_newline_fields (fun _ => NetResult.ok 200)
    (fun _ => ⟨[], [], none, none, none, none, none⟩) (fun s => s) "F" 0
    ⟨"t", "d", none, some "x"⟩ c9rec rfl
  exact ⟨h.1, h.2.2.2.1, h.2.2.2.2⟩

/-! ### C6: numbering sync between description markers and links keys -/

/-- The caption shown for an image: the alt text when truthy, else the
fixed `no description` sentinel. -/
def capOrNoDescription (cap : Option String) : String :=
  match cap with
  | some s => if s ≠ "" then s else "no description"
  | none => "no description"

/-- The spec's description-marker block (§3 composition invariant),
written from the spec's words: the concatenation, in image-discovery
order, of `"[image {2+i}: {caption_or_no_description}][{2+i}]"` for each
accepted image `i = 0 .. K-1`. -/
def specMarkers (l : List (String × Option String)) : String :=
  (l.enum.map (fun p =>
    "[image " ++ toString (2 + p.1) ++ ": " ++ capOrNoDescription p.2.2 ++ "][" ++
      toString (2 + p.1) ++ "]")).foldr (fun a b => a ++ b) ""

theorem mapCongr {α β : Type} (l : List α) (f g : α → β) (h : ∀ x ∈ l, f x = g x) :
    l.map f = l.map g := by
  induction l with
  | nil => rfl
  | cons a tl ih =>
    simp only [List.map_cons]
    rw [h a (List.mem_cons_self a tl), ih (fun x hx => h x (List.mem_cons_of_mem a hx))]

theorem markersText_spec_general :
    ∀ (l : List (String × Option String)) (k : Nat),
      markersText l (2 + k) =
        ((List.enumFrom k l).map (fun p =>
          "[image " ++ toString (2 + p.1) ++ ": " ++ capOrNoDescription p.2.2 ++ "][" ++
            toString (2 + p.1) ++ "]")).foldr (fun a b => a ++ b) "" := by
  intro l
  induction l with
  | nil => intro k; rfl
  | cons p tl ih =>
    intro k
    obtain ⟨u, cap⟩ := p
    show "[image " ++ toString (2 + k) ++ ": " ++ _ ++ "][" ++ toString (2 + k) ++ "]" ++
        markersText tl (2 + k + 1) = _
    rw [Nat.add_assoc 2 k 1, ih (k + 1)]
    rfl

/-- The source's marker text is exactly the spec's marker block. -/
theorem markersText_eq_spec (l : List (String × Option String)) :
    markersText l 2 = specMarkers l :=
  markersText_spec_general l 0

theorem linksEntries_length : ∀ (l : List (String × Option String)) (k : Nat),
    (linksEntries l k).length = l.length := by
  intro l
  induction l with
  | nil => intro k; rfl
  | cons p tl ih =>
    intro k
    obtain ⟨u, cap⟩ := p
    show (linksEntries tl (k + 1)).length + 1 = tl.length + 1
    rw [ih (k + 1)]

theorem linksEntries_keys : ∀ (l : List (String × Option String)) (k : Nat),
    (linksEntries l k).map Prod.fst =
      (List.range l.length).map (fun i => "[" ++ toString (k + i) ++ "]") := by
  intro l
  induction l with
  | nil => intro k; rfl
  | cons p tl ih =>
    intro k
    obtain ⟨u, cap⟩ := p
    show ("[" ++ toString k ++ "]") :: (linksEntries tl (k + 1)).map Prod.fst = _
    rw [ih (k + 1)]
    show _ = (List.range (tl.length + 1)).map (fun i => "[" ++ toString (k + i) ++ "]")
    rw [List.range_succ_eq_map, List.map_cons, List.map_map]
    have h0 : "[" ++ toString (k + 0) ++ "]" = "[" ++ toString k ++ "]" := by rfl
    rw [h0]
    have hcomp : ∀ i ∈ List.range tl.length,
        ((fun i => "[" ++ toString (k + i) ++ "]") ∘ Nat.succ) i =
          (fun i => "[" ++ toString (k + 1 + i) ++ "]") i := by
      intro i _
      simp only [Function.comp]
      have : k + Nat.succ i = k + 1 + i := by omega
      rw [this]
    rw [mapCongr _ _ _ hcomp]

/-- C6 (amended): for an enriched article with a link and `K` collected
images, *provided no image caption introduces a `<` or `&` into the
marker block* (otherwise the final `get_text` pass of
`_form_description` mangles the markers — see the counterexample), the
description is exactly the spec's marker block `[2] .. [K+1]` (one
marker per image in discovery order, with the image's caption or the
`no description` sentinel) followed by the markup-stripped feed
description — or, when that is absent, the fallback page description —
and the links collection holds exactly `K + 1` entries whose keys are
`[1], [2], .., [K+1]`, entry `[1]` being the article link. -/
theorem C6_numbering_sync (parseDate : String → String) (feedTitle : String) (item : RssItem)
    (tr : TaskResult) (l : List (String × Option String)) (url : String) (c : NewsContainer)
    (himg : tr.imgData = some l) (hurl : tr.htmlUrl = some url)
    (hform : newsObjectForm parseDate feedTitle item tr = Except.ok c)
    (hplain : plainChars (markersText l 2).data = true) :
    (∃ body, formDescriptionField tr item = Except.ok (markersText l 2 ++ body)
      ∧ c.description = specMarkers l ++ soupGetText body
      ∧ (∀ rss, item.description = some rss → body = stripTagsStr rss ++ "\n")
      ∧ (item.description = none →
          ∃ page pd, tr.parserPage = some page ∧ formPageDescription page = Except.ok pd
            ∧ body = pd ++ "\n"))
    ∧ c.links.length = l.length + 1
    ∧ c.links.map Prod.fst =
        "[1]" :: (List.range l.length).map (fun i => "[" ++ toString (2 + i) ++ "]")
    ∧ c.links.head? = some ("[1]", url ++ " (link)") := by
  unfold newsObjectForm at hform
  cases hd : formDescriptionField tr item with
  | error e => rw [hd] at hform; exact Except.noConfusion hform
  | ok d =>
    rw [hd] at hform
    simp only at hform
    injection hform with h2
    have hlinks : formLinks tr = ("[1]", url ++ " (link)") :: linksEntries l 2 := by
      unfold formLinks
      rw [himg, hurl]
      rfl
    have hbody : ∃ body, d = markersText l 2 ++ body
        ∧ (∀ rss, item.description = some rss → body = stripTagsStr rss ++ "\n")
        ∧ (item.description = none →
            ∃ page pd, tr.parserPage = some page ∧ formPageDescription page = Except.ok pd
              ∧ body = pd ++ "\n") := by
      unfold formDescriptionField at hd
      rw [himg] at hd
      cases hdesc : item.description with
      | some rss =>
        rw [hdesc] at hd
        simp only [Except.ok.injEq] at hd
        refine ⟨stripTagsStr rss ++ "\n", hd.symm, fun r hr => ?_, fun hn => ?_⟩
        · injection hr with he
          rw [he]
        · exact Option.noConfusion hn
      | none =>
        rw [hdesc] at hd
        cases hpg : tr.parserPage with
        | none => rw [hpg] at hd; exact Except.noConfusion hd
        | some page =>
          rw [hpg] at hd
          simp only at hd
          cases hpd : formPageDescription page with
          | error e => rw [hpd] at hd; exact Except.noConfusion hd
          | ok pd =>
            rw [hpd] at hd
            simp only [Except.ok.injEq] at hd
            refine ⟨pd ++ "\n", hd.symm, fun r hr => ?_, fun _ => ⟨page, pd, rfl, hpd, rfl⟩⟩
            exact Option.noConfusion hr
    rcases hbody with ⟨body, hb1, hb2, hb3⟩
    refine ⟨⟨body, by rw [hb1], ?_, hb2, hb3⟩, ?_, ?_, ?_⟩
    · rw [← h2]
      simp only
      rw [hb1, soupGetText_append_plain _ _ hplain, markersText_eq_spec]
    · rw [← h2]
      simp only
      rw [hlinks, List.length_cons, linksEntries_length]
    · rw [← h2]
      simp only
      rw [hlinks, List.map_cons, linksEntries_keys]
    · rw [← h2]
      simp only
      rw [hlinks]
      rfl

def c6tr : TaskResult :=
  ⟨some [("http://e/a.jpg", some "cap"), ("http://e/b.png", none)], some "http://e/p",
    some ⟨[], [], none, none, none, some "PT", none⟩⟩

def c6item : RssItem := ⟨"t", "d", some "http://e/p", some "b<i>o</i>dy"⟩

def c6rec : NewsContainer :=
  (newsObjectForm (fun s => s) "F" c6item c6tr).toOption.getD ⟨"", "", "", "", "", []⟩

/-- Witness for C6: two collected images; the record's description
starts with markers `[2]`, `[3]` and the links keys are `[1], [2], [3]`. -/
theorem C6_numbering_sync_witness :
    c6rec.links.length = 2 + 1
    ∧ c6rec.links.map Prod.fst =
        "[1]" :: (List.range 2).map (fun i => "[" ++ toString (2 + i) ++ "]")
    ∧ c6rec.links.head? = some ("[1]", "http://e/p" ++ " (link)")
    ∧ c6rec.description =
        specMarkers [("http://e/a.jpg", some "cap"), ("http://e/b.png", none)] ++
          soupGetText (stripTagsStr "b<i>o</i>dy" ++ "\n") := by
  have h := C6_numbering_sync (fun s => s) "F" c6item c6tr
    [("http://e/a.jpg", some "cap"), ("http://e/b.png", none)] "http://e/p" c6rec
    rfl rfl rfl (by decide)
  rcases h.1 with ⟨body, hb1, hb2, hb3, _⟩
  have hbody : body = stripTagsStr "b<i>o</i>dy" ++ "\n" := hb3 "b<i>o</i>dy" rfl
  exact ⟨h.2.1, h.2.2.1, h.2.2.2, by rw [hb2, hbody]⟩

/-- An article whose single accepted image carries the caption `x<y` —
the caption checker only rejects captions containing `href`, so such a
caption reaches `_form_description`. -/
def c6badTr : TaskResult :=
  ⟨some [("http://e/a.jpg", some "x<y")], some "http://e/p",
    some ⟨[], [], none, none, none, some "PT", none⟩⟩

def c6badItem : RssItem := ⟨"t", "d", some "http://e/p", some "5 > 3"⟩

def c6badRec : NewsContainer :=
  (newsObjectForm (fun s => s) "F" c6badItem c6badTr).toOption.getD ⟨"", "", "", "", "", []⟩

/-- C6 counterexample: with one accepted image whose caption is `x<y`
and feed description `5 > 3`, the composed string
`"[image 2: x<y][2]5 > 3\n"` loses everything from the caption's `<` to
the body's `>` in the final `BeautifulSoup(...).get_text()` pass of
`_form_description`: the record's description is `"[image 2: x 3\n"`,
which contains no bracketed marker `[2]` at all, while the links
collection still carries the keys `[1]` and `[2]` — the claimed
K-marker structure and marker/key sync fail for this article. -/
theorem C6_numbering_sync_counterexample :
    c6badRec.description = "[image 2: x 3\n"
    ∧ strContains c6badRec.description "[2]" = false
    ∧ c6badRec.links.map Prod.fst = ["[1]", "[2]"]
    ∧ c6badRec.links.length = 1 + 1 := by
  refine ⟨rfl, by decide, rfl, rfl⟩

end RssReader
